import Mathlib

set_option maxRecDepth 100000

/-!
Verification of the MimiBoot second-stage bootloader core against its
specification.  The definitions below are a shallow embedding of the C
sources (loader.c, elf.h, loader.h, handoff.c, handoff.h, main.c):

* machine integers (uint32_t / uint16_t / uint8_t) are modelled as Nat with
  an explicit reduction modulo 2^32 (or 256) exactly where the C arithmetic
  can wrap;
* the flat 32-bit memory written by the loader is a function from addresses
  to bytes;
* the ELF file is a list of bytes; the io-ops pair from main.c
  (fat32_seek + fat32_read over fault-free storage) is modelled by ioRead,
  which yields exactly the requested bytes or fails -- the loader treats a
  short read as fatal, so only the all-or-nothing outcome is observable;
* the C for-loops are written as structurally recursive functions on a
  countdown n (n = loop bound minus the loop index i), so that every
  definition evaluates by kernel reduction.
-/

namespace MimiBoot

/-- 2^32, the modulus of uint32_t arithmetic. -/
def U32MOD : Nat := 4294967296

/-! ### Error codes (loader.h, mimi_err_t) -/

inductive mimi_err where
  | MIMI_OK
  | MIMI_ERR_IO
  | MIMI_ERR_NOT_FOUND
  | MIMI_ERR_READ
  | MIMI_ERR_SEEK
  | MIMI_ERR_NOT_ELF
  | MIMI_ERR_NOT_ELF32
  | MIMI_ERR_NOT_LE
  | MIMI_ERR_NOT_EXEC
  | MIMI_ERR_NOT_ARM
  | MIMI_ERR_BAD_VERSION
  | MIMI_ERR_NO_ENTRY
  | MIMI_ERR_NO_PHDRS
  | MIMI_ERR_BAD_PHDR_SIZE
  | MIMI_ERR_TOO_MANY_PHDRS
  | MIMI_ERR_NO_LOADABLE
  | MIMI_ERR_ADDR_INVALID
  | MIMI_ERR_ADDR_OVERLAP
  | MIMI_ERR_TOO_LARGE
  | MIMI_ERR_LOAD_FAILED
  | MIMI_ERR_ALIGNMENT
  | MIMI_ERR_NO_MEMORY
  | MIMI_ERR_BAD_REGION
  deriving DecidableEq, Repr

open mimi_err

/-! ### ELF constants (elf.h) -/

def EI_MAG0 : Nat := 0
def EI_MAG1 : Nat := 1
def EI_MAG2 : Nat := 2
def EI_MAG3 : Nat := 3
def EI_CLASS : Nat := 4
def EI_DATA : Nat := 5
def EI_VERSION : Nat := 6

def ELFMAG0 : Nat := 0x7f
def ELFMAG1 : Nat := 0x45
def ELFMAG2 : Nat := 0x4c
def ELFMAG3 : Nat := 0x46

def ELFCLASS32 : Nat := 1
def ELFDATA2LSB : Nat := 1
def EV_CURRENT : Nat := 1
def ET_EXEC : Nat := 2
def EM_ARM : Nat := 40
def PT_LOAD : Nat := 1

def PF_X : Nat := 0x1
def PF_W : Nat := 0x2
def PF_R : Nat := 0x4

/-! ### ELF structures, decoded from raw little-endian bytes.

The C loader reads the 52-byte Elf32_Ehdr and the 32-byte Elf32_Phdr
directly from the file into packed structs; here the same bytes are decoded
field by field (little-endian, per the layouts in elf.h). -/

structure Elf32_Ehdr where
  e_ident : List Nat
  e_type : Nat
  e_machine : Nat
  e_version : Nat
  e_entry : Nat
  e_phoff : Nat
  e_shoff : Nat
  e_flags : Nat
  e_ehsize : Nat
  e_phentsize : Nat
  e_phnum : Nat
  e_shentsize : Nat
  e_shnum : Nat
  e_shstrndx : Nat
  deriving DecidableEq, Repr

structure Elf32_Phdr where
  p_type : Nat
  p_offset : Nat
  p_vaddr : Nat
  p_paddr : Nat
  p_filesz : Nat
  p_memsz : Nat
  p_flags : Nat
  p_align : Nat
  deriving DecidableEq, Repr

/-- Value of a little-endian byte string (first byte is least significant).
Each byte is reduced mod 256, as the C reads them through uint8_t. -/
def leVal : List Nat → Nat
  | [] => 0
  | b :: rest => b % 256 + 256 * leVal rest

/-- Little-endian field of n bytes at offset off. -/
def readLE (bytes : List Nat) (off n : Nat) : Nat :=
  leVal ((bytes.drop off).take n)

/-- Decode a 52-byte Elf32_Ehdr (layout from elf.h). -/
def decodeEhdr (b : List Nat) : Elf32_Ehdr :=
  { e_ident := (b.take 16).map (fun x => x % 256)
    e_type := readLE b 16 2
    e_machine := readLE b 18 2
    e_version := readLE b 20 4
    e_entry := readLE b 24 4
    e_phoff := readLE b 28 4
    e_shoff := readLE b 32 4
    e_flags := readLE b 36 4
    e_ehsize := readLE b 40 2
    e_phentsize := readLE b 42 2
    e_phnum := readLE b 44 2
    e_shentsize := readLE b 46 2
    e_shnum := readLE b 48 2
    e_shstrndx := readLE b 50 2 }

/-- Decode a 32-byte Elf32_Phdr (layout from elf.h). -/
def decodePhdr (b : List Nat) : Elf32_Phdr :=
  { p_type := readLE b 0 4
    p_offset := readLE b 4 4
    p_vaddr := readLE b 8 4
    p_paddr := readLE b 12 4
    p_filesz := readLE b 16 4
    p_memsz := readLE b 20 4
    p_flags := readLE b 24 4
    p_align := readLE b 28 4 }

/-! ### ELF header validation (loader.c, mimi_elf_validate_header).

The checks appear in exactly the source order; the first failing check
determines the returned error. -/

def mimi_elf_validate_header (ehdr : Elf32_Ehdr) : mimi_err :=
  if ehdr.e_ident.getD EI_MAG0 0 ≠ ELFMAG0 ∨ ehdr.e_ident.getD EI_MAG1 0 ≠ ELFMAG1 ∨
     ehdr.e_ident.getD EI_MAG2 0 ≠ ELFMAG2 ∨ ehdr.e_ident.getD EI_MAG3 0 ≠ ELFMAG3 then
    MIMI_ERR_NOT_ELF
  else if ehdr.e_ident.getD EI_CLASS 0 ≠ ELFCLASS32 then
    MIMI_ERR_NOT_ELF32
  else if ehdr.e_ident.getD EI_DATA 0 ≠ ELFDATA2LSB then
    MIMI_ERR_NOT_LE
  else if ehdr.e_ident.getD EI_VERSION 0 ≠ EV_CURRENT ∨ ehdr.e_version ≠ EV_CURRENT then
    MIMI_ERR_BAD_VERSION
  else if ehdr.e_type ≠ ET_EXEC then
    MIMI_ERR_NOT_EXEC
  else if ehdr.e_machine ≠ EM_ARM then
    MIMI_ERR_NOT_ARM
  else if ehdr.e_entry = 0 then
    MIMI_ERR_NO_ENTRY
  else if ehdr.e_phoff = 0 ∨ ehdr.e_phnum = 0 then
    MIMI_ERR_NO_PHDRS
  else if ehdr.e_phentsize ≠ 32 then
    MIMI_ERR_BAD_PHDR_SIZE
  else if ehdr.e_phnum > 64 then
    MIMI_ERR_TOO_MANY_PHDRS
  else
    MIMI_OK

/-! ### Memory regions and loader configuration (loader.h) -/

def MIMI_MEM_READ : Nat := 0x0001
def MIMI_MEM_WRITE : Nat := 0x0002
def MIMI_MEM_EXEC : Nat := 0x0004
def MIMI_MEM_RAM : Nat := 0x0010
def MIMI_MEM_FLASH : Nat := 0x0020

def MIMI_MAX_SEGMENTS : Nat := 16
def LOAD_BUFFER_SIZE : Nat := 512

structure mimi_mem_region where
  base : Nat
  size : Nat
  flags : Nat
  deriving DecidableEq, Repr

/-- Loader configuration (mimi_loader_config_t).  The io-ops member is not a
field: reads go through ioRead over the file byte list, which is the deployed
io pair of main.c over fault-free storage.  region_count is the length of
the regions list. -/
structure mimi_loader_config where
  regions : List mimi_mem_region
  validate_addresses : Bool
  zero_bss : Bool
  verify_after_load : Bool

structure mimi_segment_info where
  vaddr : Nat
  size : Nat
  flags : Nat
  loaded : Bool
  deriving DecidableEq, Repr

structure mimi_load_result where
  status : mimi_err
  entry : Nat
  load_base : Nat
  load_end : Nat
  total_size : Nat
  segment_count : Nat
  segments : List mimi_segment_info
  bytes_copied : Nat
  bytes_zeroed : Nat
  deriving DecidableEq, Repr

/-! ### Flat 32-bit memory and the no-libc memory helpers (loader.c) -/

/-- Byte-addressed memory.  Addresses are taken mod 2^32 on every write,
mirroring the 32-bit flat address space the C pointers live in. -/
def Mem : Type := Nat → Nat

def writeByte (mem : Mem) (addr v : Nat) : Mem :=
  fun a => if a = addr % U32MOD then v else mem a

/-- mimi_memset: set size bytes starting at dst to val. -/
def mimi_memset (mem : Mem) (dst val : Nat) : Nat → Mem
  | 0 => mem
  | size + 1 => mimi_memset (writeByte mem dst val) (dst + 1) val size

/-- mimi_memcpy: copy the buffer to consecutive addresses starting at dst. -/
def mimi_memcpy (mem : Mem) (dst : Nat) : List Nat → Mem
  | [] => mem
  | b :: rest => mimi_memcpy (writeByte mem dst b) (dst + 1) rest

/-- mimi_memcmp: compare memory at a against the buffer; 0 means equal. -/
def mimi_memcmp (mem : Mem) (a : Nat) : List Nat → Int
  | [] => 0
  | b :: rest =>
    if mem (a % U32MOD) ≠ b then (if mem (a % U32MOD) < b then -1 else 1)
    else mimi_memcmp mem (a + 1) rest

/-! ### Address-range validation helpers (loader.c) -/

/-- mimi_addr_in_region, including the uint32 overflow guard
(addr + size < addr in wrapped arithmetic). -/
def mimi_addr_in_region (addr size : Nat) (region : mimi_mem_region) : Bool :=
  if (addr + size) % U32MOD < addr then
    false
  else
    let region_end := (region.base + region.size) % U32MOD
    decide (region.base ≤ addr ∧ (addr + size) % U32MOD ≤ region_end)

/-- mimi_addr_valid: the range lies in some region carrying all required
flags. -/
def mimi_addr_valid (addr size required_flags : Nat) (config : mimi_loader_config) : Bool :=
  config.regions.any (fun region =>
    decide (region.flags &&& required_flags = required_flags) &&
    mimi_addr_in_region addr size region)

/-- mimi_ranges_overlap, with the uint32-wrapped interval ends of the C. -/
def mimi_ranges_overlap (a_start a_size b_start b_size : Nat) : Bool :=
  let a_end := (a_start + a_size) % U32MOD
  let b_end := (b_start + b_size) % U32MOD
  decide (a_start < b_end ∧ b_start < a_end)

/-! ### File io (main.c io ops over fat32, fault-free storage).

loader_io_read(file, offset, buf, size) returns size exactly when
offset + size fits in the file; the loader treats any other outcome
(negative or short) as fatal, which ioRead models by returning none. -/

def ioRead (file : List Nat) (off n : Nat) : Option (List Nat) :=
  if off + n ≤ file.length then some ((file.drop off).take n) else none

/-! ### Segment loading (loader.c, mimi_load_segment).

The copy and verify while-loops become structural recursion on a fuel
argument; fuel starts at the total remaining byte count and each iteration
consumes at least one byte, so fuel never runs out on the paths the C
executes (every lemma below assumes remaining ≤ fuel). -/

def copyLoop (file : List Nat) (fuel : Nat) (mem : Mem)
    (file_offset dest_addr remaining bytes_copied : Nat) : mimi_err × Mem × Nat :=
  if remaining = 0 then (MIMI_OK, mem, bytes_copied)
  else
    match fuel with
    | 0 => (MIMI_ERR_READ, mem, bytes_copied)
    | fuel + 1 =>
      let chunk := if remaining > LOAD_BUFFER_SIZE then LOAD_BUFFER_SIZE else remaining
      match ioRead file file_offset chunk with
      | none => (MIMI_ERR_READ, mem, bytes_copied)
      | some buffer =>
        copyLoop file fuel (mimi_memcpy mem dest_addr buffer)
          ((file_offset + chunk) % U32MOD) ((dest_addr + chunk) % U32MOD)
          (remaining - chunk) ((bytes_copied + chunk) % U32MOD)

def verifyLoop (file : List Nat) (fuel : Nat) (mem : Mem)
    (file_offset dest_addr remaining : Nat) : mimi_err :=
  if remaining = 0 then MIMI_OK
  else
    match fuel with
    | 0 => MIMI_ERR_READ
    | fuel + 1 =>
      let chunk := if remaining > LOAD_BUFFER_SIZE then LOAD_BUFFER_SIZE else remaining
      match ioRead file file_offset chunk with
      | none => MIMI_ERR_READ
      | some buffer =>
        if mimi_memcmp mem dest_addr buffer ≠ 0 then MIMI_ERR_LOAD_FAILED
        else verifyLoop file fuel mem ((file_offset + chunk) % U32MOD)
          ((dest_addr + chunk) % U32MOD) (remaining - chunk)

/-- mimi_load_segment.  Returns (status, recorded segment info, memory,
bytes_copied, bytes_zeroed); the info is what the C writes into
result->segments[seg_index] whether or not the segment loads. -/
def mimi_load_segment (config : mimi_loader_config) (file : List Nat) (phdr : Elf32_Phdr)
    (mem : Mem) (bytes_copied bytes_zeroed : Nat) :
    mimi_err × mimi_segment_info × Mem × Nat × Nat :=
  let info : mimi_segment_info :=
    { vaddr := phdr.p_vaddr, size := phdr.p_memsz, flags := phdr.p_flags, loaded := false }
  if phdr.p_memsz = 0 then
    (MIMI_OK, { info with loaded := true }, mem, bytes_copied, bytes_zeroed)
  else if config.validate_addresses = true ∧
      mimi_addr_valid phdr.p_vaddr phdr.p_memsz (MIMI_MEM_WRITE ||| MIMI_MEM_RAM) config = false then
    (MIMI_ERR_ADDR_INVALID, info, mem, bytes_copied, bytes_zeroed)
  else
    match copyLoop file phdr.p_filesz mem phdr.p_offset phdr.p_vaddr phdr.p_filesz bytes_copied with
    | (err, mem, bytes_copied) =>
      if err ≠ MIMI_OK then (err, info, mem, bytes_copied, bytes_zeroed)
      else
        -- after the copy loop the C dest_addr equals p_vaddr + p_filesz (mod 2^32)
        match (if config.zero_bss = true ∧ phdr.p_memsz > phdr.p_filesz then
                 (mimi_memset mem ((phdr.p_vaddr + phdr.p_filesz) % U32MOD) 0
                    (phdr.p_memsz - phdr.p_filesz),
                  (bytes_zeroed + (phdr.p_memsz - phdr.p_filesz)) % U32MOD)
               else (mem, bytes_zeroed)) with
        | (mem, bytes_zeroed) =>
          if config.verify_after_load = true ∧ phdr.p_filesz > 0 then
            match verifyLoop file phdr.p_filesz mem phdr.p_offset phdr.p_vaddr phdr.p_filesz with
            | err =>
              if err ≠ MIMI_OK then (err, info, mem, bytes_copied, bytes_zeroed)
              else (MIMI_OK, { info with loaded := true }, mem, bytes_copied, bytes_zeroed)
          else (MIMI_OK, { info with loaded := true }, mem, bytes_copied, bytes_zeroed)

/-! ### Two-pass load (loader.c, mimi_elf_load).

Pass 1 is the C for-loop with condition i < e_phnum && i < MIMI_MAX_SEGMENTS;
pass 2 the loop with condition i < e_phnum.  Both are written with a
countdown n (the number of iterations left), so that pass1_loop is entered
with n = min e_phnum MIMI_MAX_SEGMENTS and pass2_loop with n = e_phnum,
both at i = 0. -/

structure pass1_state where
  seg_info : List (Nat × Nat)
  load_base : Nat
  load_end : Nat
  total_memsz : Nat
  deriving DecidableEq, Repr

def pass1_init : pass1_state :=
  { seg_info := [], load_base := 0xFFFFFFFF, load_end := 0, total_memsz := 0 }

def pass1_loop (config : mimi_loader_config) (file : List Nat) (ehdr : Elf32_Ehdr) :
    Nat → Nat → pass1_state → mimi_err × pass1_state
  | 0, _, st => (MIMI_OK, st)
  | n + 1, i, st =>
    let phdr_offset := (ehdr.e_phoff + i * 32) % U32MOD
    match ioRead file phdr_offset 32 with
    | none => (MIMI_ERR_READ, st)
    | some pb =>
      let phdr := decodePhdr pb
      if phdr.p_type ≠ PT_LOAD then pass1_loop config file ehdr n (i + 1) st
      else if phdr.p_memsz = 0 then pass1_loop config file ehdr n (i + 1) st
      else if config.validate_addresses = true ∧
          mimi_addr_valid phdr.p_vaddr phdr.p_memsz (MIMI_MEM_WRITE ||| MIMI_MEM_RAM) config
            = false then
        (MIMI_ERR_ADDR_INVALID, st)
      else if st.seg_info.any (fun s => mimi_ranges_overlap phdr.p_vaddr phdr.p_memsz s.1 s.2) then
        (MIMI_ERR_ADDR_OVERLAP, st)
      else
        pass1_loop config file ehdr n (i + 1)
          { seg_info := st.seg_info ++ [(phdr.p_vaddr, phdr.p_memsz)]
            load_base := if phdr.p_vaddr < st.load_base then phdr.p_vaddr else st.load_base
            load_end := if st.load_end < (phdr.p_vaddr + phdr.p_memsz) % U32MOD
                        then (phdr.p_vaddr + phdr.p_memsz) % U32MOD else st.load_end
            total_memsz := (st.total_memsz + phdr.p_memsz) % U32MOD }

def pass2_loop (config : mimi_loader_config) (file : List Nat) (ehdr : Elf32_Ehdr) :
    Nat → Nat → Nat → List mimi_segment_info → Mem → Nat → Nat →
    mimi_err × Nat × List mimi_segment_info × Mem × Nat × Nat
  | 0, _, seg_index, segments, mem, bytes_copied, bytes_zeroed =>
    (MIMI_OK, seg_index, segments, mem, bytes_copied, bytes_zeroed)
  | n + 1, i, seg_index, segments, mem, bytes_copied, bytes_zeroed =>
    let phdr_offset := (ehdr.e_phoff + i * 32) % U32MOD
    match ioRead file phdr_offset 32 with
    | none => (MIMI_ERR_READ, seg_index, segments, mem, bytes_copied, bytes_zeroed)
    | some pb =>
      let phdr := decodePhdr pb
      if phdr.p_type ≠ PT_LOAD then
        pass2_loop config file ehdr n (i + 1) seg_index segments mem bytes_copied bytes_zeroed
      else if MIMI_MAX_SEGMENTS ≤ seg_index then
        -- the C break: stop loading, keep MIMI_OK
        (MIMI_OK, seg_index, segments, mem, bytes_copied, bytes_zeroed)
      else
        match mimi_load_segment config file phdr mem bytes_copied bytes_zeroed with
        | (err, info, mem2, bc2, bz2) =>
          let segments2 := segments ++ [info]
          if err ≠ MIMI_OK then (err, seg_index, segments2, mem2, bc2, bz2)
          else pass2_loop config file ehdr n (i + 1) (seg_index + 1) segments2 mem2 bc2 bz2

/-- mimi_elf_load.  Returns the load result together with the final memory. -/
def mimi_elf_load (config : mimi_loader_config) (file : List Nat) (mem : Mem) :
    mimi_load_result × Mem :=
  let result : mimi_load_result :=
    { status := MIMI_OK, entry := 0, load_base := 0xFFFFFFFF, load_end := 0, total_size := 0,
      segment_count := 0, segments := [], bytes_copied := 0, bytes_zeroed := 0 }
  match ioRead file 0 52 with
  | none => ({ result with status := MIMI_ERR_READ }, mem)
  | some hb =>
    let ehdr := decodeEhdr hb
    let err := mimi_elf_validate_header ehdr
    if err ≠ MIMI_OK then ({ result with status := err }, mem)
    else
      let result := { result with entry := ehdr.e_entry }
      match pass1_loop config file ehdr (min ehdr.e_phnum MIMI_MAX_SEGMENTS) 0 pass1_init with
      | (err1, st) =>
        let result := { result with load_base := st.load_base, load_end := st.load_end }
        if err1 ≠ MIMI_OK then ({ result with status := err1 }, mem)
        else if st.seg_info.length = 0 then
          ({ result with status := MIMI_ERR_NO_LOADABLE }, mem)
        else
          match pass2_loop config file ehdr ehdr.e_phnum 0 0 [] mem 0 0 with
          | (err2, seg_index, segments, mem2, bc2, bz2) =>
            if err2 ≠ MIMI_OK then
              ({ result with
                  status := err2, segments := segments,
                  bytes_copied := bc2, bytes_zeroed := bz2 }, mem2)
            else
              ({ result with
                  status := MIMI_OK, segment_count := seg_index,
                  segments := segments, total_size := st.total_memsz,
                  bytes_copied := bc2, bytes_zeroed := bz2 }, mem2)

/-- mimi_elf_validate_loaded (loader.c).  The has_exec scan of the C computes
a warning that is deliberately not an error, so it does not influence the
returned status. -/
def mimi_elf_validate_loaded (result : mimi_load_result) : mimi_err :=
  if result.status ≠ MIMI_OK then result.status
  else if result.entry < result.load_base ∨ result.load_end ≤ result.entry then
    MIMI_ERR_NO_ENTRY
  else
    MIMI_OK

/-! ### Helpers naming the data the loader saw, for theorem statements -/

/-- The ELF header the loader decodes from the first 52 file bytes. -/
def ehdrOf (file : List Nat) : Elf32_Ehdr := decodeEhdr (file.take 52)

/-- File offset of program header i (uint32 arithmetic of loader.c). -/
def phdrOff (ehdr : Elf32_Ehdr) (i : Nat) : Nat := (ehdr.e_phoff + i * 32) % U32MOD

def phdrBytes (file : List Nat) (ehdr : Elf32_Ehdr) (i : Nat) : List Nat :=
  (file.drop (phdrOff ehdr i)).take 32

/-- Program header i as the loader decodes it. -/
def phdrAt (file : List Nat) (ehdr : Elf32_Ehdr) (i : Nat) : Elf32_Phdr :=
  decodePhdr (phdrBytes file ehdr i)

/-- Number of PT_LOAD program headers among indices i, i+1, ... (n entries);
written in the countdown style of the loops it mirrors. -/
def ptLoadCountFrom (file : List Nat) (ehdr : Elf32_Ehdr) : Nat → Nat → Nat
  | 0, _ => 0
  | n + 1, i =>
    (if (phdrAt file ehdr i).p_type = PT_LOAD then 1 else 0) + ptLoadCountFrom file ehdr n (i + 1)

/-- True exactly when mimi_elf_load gets past the header check and the whole
of pass 1 (including the no-loadable check), i.e. when pass 2 is entered. -/
def pass1_accepts (config : mimi_loader_config) (file : List Nat) : Bool :=
  match ioRead file 0 52 with
  | none => false
  | some hb =>
    let ehdr := decodeEhdr hb
    if mimi_elf_validate_header ehdr ≠ MIMI_OK then false
    else
      match pass1_loop config file ehdr (min ehdr.e_phnum MIMI_MAX_SEGMENTS) 0 pass1_init with
      | (err1, st) => decide (err1 = MIMI_OK) && decide (st.seg_info.length ≠ 0)

/-! ### Concrete test images used by the counterexamples and witnesses -/

def u16le (x : Nat) : List Nat := [x % 256, x / 256 % 256]

def u32le (x : Nat) : List Nat :=
  [x % 256, x / 256 % 256, x / 65536 % 256, x / 16777216 % 256]

/-- A valid 52-byte ELF32 ARM executable header with the given entry point,
program-header offset and count (magic, class 32, little-endian, version 1,
ET_EXEC, EM_ARM, phentsize 32). -/
def mkEhdrBytes (entry phoff phnum : Nat) : List Nat :=
  [0x7f, 0x45, 0x4c, 0x46, 1, 1, 1, 0, 0, 0, 0, 0, 0, 0, 0, 0] ++
  u16le 2 ++ u16le 40 ++ u32le 1 ++ u32le entry ++ u32le phoff ++ u32le 0 ++
  u32le 0 ++ u16le 52 ++ u16le 32 ++ u16le phnum ++ u16le 0 ++ u16le 0 ++ u16le 0

/-- A 32-byte program header with the given type, file offset, vaddr,
file size and memory size (flags RWX, align 0). -/
def mkPhdrBytes (ptype off vaddr filesz memsz : Nat) : List Nat :=
  u32le ptype ++ u32le off ++ u32le vaddr ++ u32le 0 ++ u32le filesz ++
  u32le memsz ++ u32le 7 ++ u32le 0

/-- The loader configuration of main.c: one RWX RAM region, address
validation and BSS zeroing on, verify-after-load off.  The region is a
small RAM window starting at 0. -/
def cfgStd : mimi_loader_config :=
  { regions := [{ base := 0, size := 4096,
                  flags := MIMI_MEM_READ ||| MIMI_MEM_WRITE ||| MIMI_MEM_EXEC ||| MIMI_MEM_RAM }]
    validate_addresses := true
    zero_bss := true
    verify_after_load := false }

/-- Initial memory: every byte 0xAA, so any write is observable. -/
def mem0 : Mem := fun _ => 0xAA

/-- C1 counterexample image: two PT_LOAD segments; the second one's file
data lies beyond the end of the file, which pass 1 never checks. -/
def imgC1 : List Nat :=
  mkEhdrBytes 1 52 2 ++ mkPhdrBytes 1 0 0 4 4 ++ mkPhdrBytes 1 2000 100 4 4

/-- C2 counterexample image: one PT_LOAD segment with
p_filesz = 8 > p_memsz = 2. -/
def imgC2 : List Nat :=
  mkEhdrBytes 1 52 1 ++ mkPhdrBytes 1 0 0 8 2

/-- C3 counterexample image: segment 0 has p_filesz = 8 > p_memsz = 2 and
overruns into segment 1's range [4, 8), which is then zeroed as BSS. -/
def imgC3 : List Nat :=
  mkEhdrBytes 1 52 2 ++ mkPhdrBytes 1 0 0 8 2 ++ mkPhdrBytes 1 0 4 0 4

/-- C4 counterexample image: 17 program headers; index 0 and index 16 are
PT_LOAD with overlapping ranges [0, 8) and [4, 12); indices 1..15 are
PT_NULL.  Pass 1 only examines indices 0..15. -/
def imgC4 : List Nat :=
  mkEhdrBytes 1 52 17 ++ mkPhdrBytes 1 0 0 0 8 ++
  (List.replicate 15 (mkPhdrBytes 0 0 0 0 0)).flatten ++ mkPhdrBytes 1 0 4 0 8

/-- 16 disjoint one-byte PT_LOAD segments (vaddr = index, no file data). -/
def imgC5a : List Nat :=
  mkEhdrBytes 1 52 16 ++
  ((List.range 16).map (fun k => mkPhdrBytes 1 0 k 0 1)).flatten

/-- 17 disjoint one-byte PT_LOAD segments. -/
def imgC5b : List Nat :=
  mkEhdrBytes 1 52 17 ++
  ((List.range 17).map (fun k => mkPhdrBytes 1 0 k 0 1)).flatten

/-- C10 image: one ordinary PT_LOAD and one empty PT_LOAD (p_memsz = 0). -/
def imgC10 : List Nat :=
  mkEhdrBytes 1 52 2 ++ mkPhdrBytes 1 0 0 0 4 ++ mkPhdrBytes 1 0 100 0 0

/-- The minimal valid image of the specification's seed scenario, scaled to
the test region: one PT_LOAD with file data [52+32, 52+32+4) loaded at 0,
memsz 8 (so 4 BSS bytes), entry 2. -/
def imgMin : List Nat :=
  mkEhdrBytes 2 52 1 ++ mkPhdrBytes 1 84 0 4 8 ++ [0xDE, 0xAD, 0xBE, 0xEF]

/-- A file that is not an ELF image at all. -/
def imgBad : List Nat := List.replicate 52 0

/-! ### Orchestration: opening the boot image (main.c, phase 7).

fat32_open is abstracted as a function from path to status; the record
returned collects which paths were passed to fat32_open (in order) and the
path whose open succeeded, if any (none corresponds to
boot_fail(BLINK_FILE_NOT_FOUND)). -/

inductive fat32_err where
  | FAT32_OK
  | FAT32_ERR_IO
  | FAT32_ERR_NOT_FAT32
  | FAT32_ERR_NOT_FOUND
  | FAT32_ERR_NOT_FILE
  | FAT32_ERR_NOT_DIR
  | FAT32_ERR_EOF
  | FAT32_ERR_INVALID
  deriving DecidableEq, Repr

open fat32_err

structure boot_open_result where
  attempts : List String
  opened : Option String
  deriving DecidableEq, Repr

/-- The open-with-fallback sequence of main.c lines 289-301: open the
primary image path; if that fails with any error and a non-empty fallback
path is configured, open the fallback once; fail if that also fails.
(The C condition fallback_path[0] != the nul byte is the non-emptiness
test on the fallback string.) -/
def mimi_open_boot_image (fopen : String → fat32_err)
    (image_path fallback_path : String) (has_fallback : Bool) : boot_open_result :=
  let fs_err := fopen image_path
  if fs_err ≠ FAT32_OK then
    if has_fallback = true ∧ fallback_path ≠ "" then
      let fs_err2 := fopen fallback_path
      if fs_err2 ≠ FAT32_OK then
        { attempts := [image_path, fallback_path], opened := none }
      else
        { attempts := [image_path, fallback_path], opened := some fallback_path }
    else
      { attempts := [image_path], opened := none }
  else
    { attempts := [image_path], opened := some image_path }

/-! ### Handoff construction (handoff.c, handoff.h) -/

def MIMI_HANDOFF_MAGIC : Nat := 0x494D494D
def MIMI_HANDOFF_VERSION : Nat := 1
def MIMI_MAX_REGIONS : Nat := 8

def MIMI_REGION_RAM : Nat := 0x00000001
def MIMI_REGION_FLASH : Nat := 0x00000002
def MIMI_REGION_LOADER : Nat := 0x00000010
def MIMI_REGION_PAYLOAD : Nat := 0x00000020

/-- mimi_platform_info_t, with exactly the fields mimi_handoff_build
reads from it (the hal header itself is outside the core sources). -/
structure mimi_platform_info where
  reset_reason : Nat
  boot_source : Nat
  sys_clock_hz : Nat
  ram_base : Nat
  ram_size : Nat
  loader_base : Nat
  loader_size : Nat
  deriving DecidableEq, Repr

structure mimi_region where
  base : Nat
  size : Nat
  flags : Nat
  reserved : Nat
  deriving DecidableEq, Repr

/-- mimi_image_info_t; name is the 32-byte character array. -/
structure mimi_image_info where
  entry : Nat
  load_base : Nat
  load_size : Nat
  crc32 : Nat
  name : List Nat
  deriving DecidableEq, Repr

/-- mimi_handoff_t (handoff.h).  regions has 8 entries and reserved 8
words, as in the fixed 256-byte layout. -/
structure mimi_handoff where
  magic : Nat
  version : Nat
  struct_size : Nat
  header_crc : Nat
  boot_reason : Nat
  boot_source : Nat
  boot_count : Nat
  boot_flags : Nat
  sys_clock_hz : Nat
  boot_time_us : Nat
  loader_time_us : Nat
  reserved_timing : Nat
  ram_base : Nat
  ram_size : Nat
  loader_base : Nat
  loader_size : Nat
  image : mimi_image_info
  region_count : Nat
  reserved_regions : Nat
  regions : List mimi_region
  reserved : List Nat
  deriving DecidableEq, Repr

/-- The all-zero handoff the build starts from (the C zeroes all 256
bytes first). -/
def handoff_zero : mimi_handoff :=
  { magic := 0, version := 0, struct_size := 0, header_crc := 0
    boot_reason := 0, boot_source := 0, boot_count := 0, boot_flags := 0
    sys_clock_hz := 0, boot_time_us := 0, loader_time_us := 0, reserved_timing := 0
    ram_base := 0, ram_size := 0, loader_base := 0, loader_size := 0
    image := { entry := 0, load_base := 0, load_size := 0, crc32 := 0,
               name := List.replicate 32 0 }
    region_count := 0, reserved_regions := 0
    regions := List.replicate 8 { base := 0, size := 0, flags := 0, reserved := 0 }
    reserved := List.replicate 8 0 }

/-- mimi_strncpy(dst, src, max): copy source characters up to the first
nul or max-1 characters, then write a terminating nul; the rest of dst is
untouched.  src is a byte list without its terminating nul. -/
def mimi_strncpy (dst src : List Nat) (max : Nat) : List Nat :=
  let copied := (src.takeWhile (fun c => c ≠ 0)).take (max - 1)
  copied ++ [0] ++ dst.drop (copied.length + 1)

/-- One step of the bitwise CRC32 inner loop:
crc = (crc >> 1) ^ (0xEDB88320 & -(crc & 1)), with the uint32 negation
written out. -/
def crc32_bit (crc : Nat) : Nat :=
  (crc >>> 1) ^^^ (0xEDB88320 &&& ((U32MOD - (crc &&& 1)) % U32MOD))

def crc32_bits (crc : Nat) : Nat → Nat
  | 0 => crc
  | n + 1 => crc32_bits (crc32_bit crc) n

/-- mimi_crc32 (handoff.c): IEEE CRC32, reflected polynomial 0xEDB88320,
initial value and final xor 0xFFFFFFFF, over a byte list. -/
def mimi_crc32 (data : List Nat) : Nat :=
  0xFFFFFFFF ^^^ (data.foldl (fun crc b => crc32_bits (crc ^^^ b) 8) 0xFFFFFFFF)

/-- The first 16 bytes of the handoff in its fixed little-endian layout:
magic, version, struct_size, header_crc at offsets 0x00/0x04/0x08/0x0C. -/
def handoff_first16 (h : mimi_handoff) : List Nat :=
  u32le h.magic ++ u32le h.version ++ u32le h.struct_size ++ u32le h.header_crc

/-- mimi_handoff_build (handoff.c).  time_us stands for the
hal_get_time_us() sample taken during the build; image_name is the
optional name string (none when the C pointer is NULL). -/
def mimi_handoff_build (load_result : mimi_load_result) (platform : mimi_platform_info)
    (image_name : Option (List Nat)) (time_us : Nat) : mimi_handoff :=
  let h := handoff_zero
  let h := { h with
              magic := MIMI_HANDOFF_MAGIC, version := MIMI_HANDOFF_VERSION,
              struct_size := 256 }
  let h := { h with
              boot_reason := platform.reset_reason, boot_source := platform.boot_source,
              boot_count := 0, boot_flags := 0 }
  let h := { h with
              sys_clock_hz := platform.sys_clock_hz, boot_time_us := time_us,
              loader_time_us := time_us }
  let h := { h with
              ram_base := platform.ram_base, ram_size := platform.ram_size,
              loader_base := platform.loader_base, loader_size := platform.loader_size }
  let h := { h with
              image := { h.image with
                          entry := load_result.entry, load_base := load_result.load_base,
                          load_size := load_result.total_size, crc32 := 0 } }
  let h := match image_name with
    | none => h
    | some s =>
      { h with image := { h.image with name := mimi_strncpy h.image.name s 32 } }
  let h := { h with region_count := 0 }
  let h := if h.region_count < MIMI_MAX_REGIONS then
      { h with
          regions := h.regions.set h.region_count
            { base := platform.ram_base, size := platform.ram_size,
              flags := MIMI_REGION_RAM ||| MIMI_REGION_PAYLOAD, reserved := 0 }
          region_count := h.region_count + 1 }
    else h
  let h := if h.region_count < MIMI_MAX_REGIONS then
      { h with
          regions := h.regions.set h.region_count
            { base := platform.loader_base, size := platform.loader_size,
              flags := MIMI_REGION_FLASH ||| MIMI_REGION_LOADER, reserved := 0 }
          region_count := h.region_count + 1 }
    else h
  let h := { h with header_crc := 0 }
  { h with header_crc := mimi_crc32 (handoff_first16 h) }

/-! ### Remaining statement helpers -/

/-- Program header i is a PT_LOAD entry with nonzero memory size, i.e. it is
exactly what pass 1 treats as a loadable segment. -/
def loadableAt (file : List Nat) (ehdr : Elf32_Ehdr) (i : Nat) : Prop :=
  (phdrAt file ehdr i).p_type = PT_LOAD ∧ (phdrAt file ehdr i).p_memsz ≠ 0

instance (file : List Nat) (ehdr : Elf32_Ehdr) (i : Nat) : Decidable (loadableAt file ehdr i) := by
  unfold loadableAt
  exact instDecidableAnd

/-- All the mimi_elf_validate_header checks that precede the program-header
count check, in source order. -/
def elf_header_checks_before_count (e : Elf32_Ehdr) : Bool :=
  decide (e.e_ident.getD EI_MAG0 0 = ELFMAG0) && decide (e.e_ident.getD EI_MAG1 0 = ELFMAG1) &&
  decide (e.e_ident.getD EI_MAG2 0 = ELFMAG2) && decide (e.e_ident.getD EI_MAG3 0 = ELFMAG3) &&
  decide (e.e_ident.getD EI_CLASS 0 = ELFCLASS32) &&
  decide (e.e_ident.getD EI_DATA 0 = ELFDATA2LSB) &&
  decide (e.e_ident.getD EI_VERSION 0 = EV_CURRENT) && decide (e.e_version = EV_CURRENT) &&
  decide (e.e_type = ET_EXEC) && decide (e.e_machine = EM_ARM) &&
  decide (e.e_entry ≠ 0) && decide (e.e_phoff ≠ 0) && decide (e.e_phnum ≠ 0) &&
  decide (e.e_phentsize = 32)

/-- Header accepted with e_phnum = 64 (for the C9 boundary witness). -/
def ehdr64 : Elf32_Ehdr := decodeEhdr (mkEhdrBytes 1 52 64)

/-- Header with e_phnum = 65 (for the C9 boundary witness). -/
def ehdr65 : Elf32_Ehdr := decodeEhdr (mkEhdrBytes 1 52 65)

/-- fat32_open oracle for the C6 counterexample: the primary path fails
with FAT32_ERR_NOT_DIR (not not-found); everything else opens fine. -/
def fopenC6 : String → fat32_err :=
  fun p => if p = "/boot/kernel.elf" then FAT32_ERR_NOT_DIR else FAT32_OK

/-!
Theorems.

First the claims that can be settled directly (C6, C7, C8, C9), then the
lemma stack about the two-pass loader, then the loader claims (C1-C5, C10).
-/

/-- C7: mimi_elf_validate_loaded returns MIMI_OK exactly when the load
status is MIMI_OK and load_base ≤ entry < load_end; in particular, on a
result with status MIMI_OK it succeeds iff the entry bound holds, and the
absence of an executable-flagged segment is never an error. -/
theorem c7_validate_loaded_iff (r : mimi_load_result) :
    mimi_elf_validate_loaded r = MIMI_OK ↔
      (r.status = MIMI_OK ∧ r.load_base ≤ r.entry ∧ r.entry < r.load_end) := by
  unfold mimi_elf_validate_loaded
  split_ifs with h1 h2 <;> simp_all <;> omega

/-- C6 (amended): the fallback path is handed to fat32_open exactly when
the primary open fails with any error and a non-empty fallback is
configured; each of the two paths is attempted at most once, the primary
first. -/
theorem c6_fallback_policy (fopen : String → fat32_err) (primary fallback : String)
    (has_fallback : Bool) :
    (mimi_open_boot_image fopen primary fallback has_fallback).attempts =
      (if fopen primary = FAT32_OK then [primary]
       else if has_fallback = true ∧ fallback ≠ "" then [primary, fallback]
       else [primary]) := by
  unfold mimi_open_boot_image
  by_cases h1 : fopen primary = FAT32_OK
  · simp [h1]
  · by_cases h2 : has_fallback = true ∧ fallback ≠ ""
    · by_cases h3 : fopen fallback = FAT32_OK <;> simp [h1, h2, h3]
    · simp [h1, h2]

/-- C6 counterexample: the primary open fails with FAT32_ERR_NOT_DIR,
which is not the not-found error, and orchestration still attempts the
fallback path. -/
theorem c6_counterexample :
    fopenC6 "/boot/kernel.elf" = FAT32_ERR_NOT_DIR ∧
    (FAT32_ERR_NOT_DIR ≠ FAT32_ERR_NOT_FOUND) ∧
    (mimi_open_boot_image fopenC6 "/boot/kernel.elf" "/boot/recovery.elf" true).attempts =
      ["/boot/kernel.elf", "/boot/recovery.elf"] := by
  refine ⟨by decide, by decide, by decide⟩

set_option maxHeartbeats 1000000 in
/-- C9: the program-header count check of mimi_elf_validate_header is the
last check (it fires exactly when every earlier check passes and
e_phnum > 64), and together with that a count of at most 64 is accepted;
so 64 is accepted and 65 is rejected with MIMI_ERR_TOO_MANY_PHDRS. -/
theorem c9_phnum_boundary (e : Elf32_Ehdr) :
    (mimi_elf_validate_header e = MIMI_ERR_TOO_MANY_PHDRS ↔
      (elf_header_checks_before_count e = true ∧ 64 < e.e_phnum)) ∧
    (elf_header_checks_before_count e = true ∧ e.e_phnum ≤ 64 →
      mimi_elf_validate_header e = MIMI_OK) := by
  unfold mimi_elf_validate_header elf_header_checks_before_count
  simp only [Bool.and_eq_true, decide_eq_true_eq]
  split_ifs <;> simp_all <;> omega

/-- C9 witness: a concrete header with e_phnum = 64 is accepted and one
with e_phnum = 65 is rejected with the too-many-program-headers error. -/
theorem c9_phnum_boundary_witness :
    mimi_elf_validate_header ehdr64 = MIMI_OK ∧
    mimi_elf_validate_header ehdr65 = MIMI_ERR_TOO_MANY_PHDRS := by
  constructor
  · exact (c9_phnum_boundary ehdr64).2 (by decide)
  · exact (c9_phnum_boundary ehdr65).1.mpr (by decide)

/-- C8: after mimi_handoff_build, the stored header_crc equals the CRC32 of
the first 16 handoff bytes with the header_crc field read as zero, for
every load result, platform info, image name and time sample; and the
mimi_crc32 in use is the standard reflected-0xEDB88320 CRC32 with initial
and final xor 0xFFFFFFFF (checked on the standard test vector
"123456789"). -/
theorem c8_handoff_crc (lr : mimi_load_result) (pl : mimi_platform_info)
    (name : Option (List Nat)) (t : Nat) :
    (mimi_handoff_build lr pl name t).header_crc =
      mimi_crc32 (handoff_first16 { mimi_handoff_build lr pl name t with header_crc := 0 }) ∧
    mimi_crc32 [0x31, 0x32, 0x33, 0x34, 0x35, 0x36, 0x37, 0x38, 0x39] = 0xCBF43926 := by
  constructor
  · cases name <;> rfl
  · decide

/-! ### Lemma stack for the two-pass loader -/

theorem leVal_lt (l : List Nat) : leVal l < 256 ^ l.length := by
  induction l with
  | nil => simp [leVal]
  | cons b rest ih =>
    have hb : b % 256 < 256 := Nat.mod_lt _ (by norm_num)
    simp only [leVal, List.length_cons, pow_succ]
    omega

theorem readLE_lt (b : List Nat) (off n : Nat) : readLE b off n < 256 ^ n := by
  have h := leVal_lt ((b.drop off).take n)
  have hlen : ((b.drop off).take n).length ≤ n := by
    simp [List.length_take]
  exact lt_of_lt_of_le h (Nat.pow_le_pow_right (by norm_num) hlen)

theorem readLE_lt_u32 (b : List Nat) (off : Nat) : readLE b off 4 < U32MOD := by
  have h := readLE_lt b off 4
  have h4 : (256 : Nat) ^ 4 = U32MOD := by norm_num [U32MOD]
  omega

theorem decodePhdr_offset_lt (pb : List Nat) : (decodePhdr pb).p_offset < U32MOD :=
  readLE_lt_u32 pb 4

theorem decodePhdr_vaddr_lt (pb : List Nat) : (decodePhdr pb).p_vaddr < U32MOD :=
  readLE_lt_u32 pb 8

theorem decodePhdr_filesz_lt (pb : List Nat) : (decodePhdr pb).p_filesz < U32MOD :=
  readLE_lt_u32 pb 16

theorem decodePhdr_memsz_lt (pb : List Nat) : (decodePhdr pb).p_memsz < U32MOD :=
  readLE_lt_u32 pb 20

theorem writeByte_at (mem : Mem) (addr v : Nat) :
    writeByte mem addr v (addr % U32MOD) = v := by
  simp [writeByte]

theorem writeByte_ne (mem : Mem) (addr v a : Nat) (h : a ≠ addr % U32MOD) :
    writeByte mem addr v a = mem a := by
  simp [writeByte, h]

/-- mimi_memcpy leaves every address outside [dst, dst + length) alone
(provided the write range does not wrap). -/
theorem mimi_memcpy_frame (buf : List Nat) :
    ∀ mem dst a, dst + buf.length ≤ U32MOD → (a < dst ∨ dst + buf.length ≤ a) →
    mimi_memcpy mem dst buf a = mem a := by
  induction buf with
  | nil => intro mem dst a _ _; rfl
  | cons b rest ih =>
    intro mem dst a hle hout
    simp only [List.length_cons] at hle hout
    have h1 : mimi_memcpy mem dst (b :: rest) a =
        mimi_memcpy (writeByte mem dst b) (dst + 1) rest a := rfl
    rw [h1, ih (writeByte mem dst b) (dst + 1) a (by omega) (by omega)]
    have hdst : dst % U32MOD = dst := Nat.mod_eq_of_lt (by omega)
    exact writeByte_ne mem dst b a (by omega)

/-- mimi_memcpy writes buffer byte j at address dst + j. -/
theorem mimi_memcpy_get (buf : List Nat) :
    ∀ mem dst j, dst + buf.length ≤ U32MOD → j < buf.length →
    mimi_memcpy mem dst buf (dst + j) = buf.getD j 0 := by
  induction buf with
  | nil => intro mem dst j _ hj; simp at hj
  | cons b rest ih =>
    intro mem dst j hle hj
    simp only [List.length_cons] at hle hj
    have h1 : mimi_memcpy mem dst (b :: rest) (dst + j) =
        mimi_memcpy (writeByte mem dst b) (dst + 1) rest (dst + j) := rfl
    rw [h1]
    match j with
    | 0 =>
      rw [mimi_memcpy_frame rest (writeByte mem dst b) (dst + 1) (dst + 0) (by omega) (by omega)]
      have hdst : dst % U32MOD = dst := Nat.mod_eq_of_lt (by omega)
      simpa [hdst] using writeByte_at mem dst b
    | k + 1 =>
      have h2 : dst + (k + 1) = (dst + 1) + k := by omega
      rw [h2, ih (writeByte mem dst b) (dst + 1) k (by omega) (by omega)]
      rfl

/-- mimi_memset leaves every address outside [dst, dst + size) alone
(provided the write range does not wrap). -/
theorem mimi_memset_frame (size : Nat) :
    ∀ mem dst val a, dst + size ≤ U32MOD → (a < dst ∨ dst + size ≤ a) →
    mimi_memset mem dst val size a = mem a := by
  induction size with
  | zero => intro mem dst val a _ _; rfl
  | succ n ih =>
    intro mem dst val a hle hout
    have h1 : mimi_memset mem dst val (n + 1) a =
        mimi_memset (writeByte mem dst val) (dst + 1) val n a := rfl
    rw [h1, ih (writeByte mem dst val) (dst + 1) val a (by omega) (by omega)]
    have hdst : dst % U32MOD = dst := Nat.mod_eq_of_lt (by omega)
    exact writeByte_ne mem dst val a (by omega)

/-- mimi_memset writes val at every address of [dst, dst + size). -/
theorem mimi_memset_get (size : Nat) :
    ∀ mem dst val j, dst + size ≤ U32MOD → j < size →
    mimi_memset mem dst val size (dst + j) = val := by
  induction size with
  | zero => intro mem dst val j _ hj; omega
  | succ n ih =>
    intro mem dst val j hle hj
    have h1 : mimi_memset mem dst val (n + 1) (dst + j) =
        mimi_memset (writeByte mem dst val) (dst + 1) val n (dst + j) := rfl
    rw [h1]
    match j with
    | 0 =>
      rw [mimi_memset_frame n (writeByte mem dst val) (dst + 1) val (dst + 0) (by omega)
        (by omega)]
      have hdst : dst % U32MOD = dst := Nat.mod_eq_of_lt (by omega)
      simpa [hdst] using writeByte_at mem dst val
    | k + 1 =>
      have h2 : dst + (k + 1) = (dst + 1) + k := by omega
      rw [h2, ih (writeByte mem dst val) (dst + 1) val k (by omega) (by omega)]

/-- A validated address range cannot reach 2^32: the overflow guard of
mimi_addr_in_region rejects every wrapping or exactly-at-the-top range. -/
theorem mimi_addr_valid_bound (addr size req : Nat) (config : mimi_loader_config)
    (ha : addr < U32MOD) (hs : size < U32MOD)
    (h : mimi_addr_valid addr size req config = true) : addr + size < U32MOD := by
  by_contra hc
  push_neg at hc
  unfold mimi_addr_valid at h
  rw [List.any_eq_true] at h
  obtain ⟨r, _, hr⟩ := h
  rw [Bool.and_eq_true] at hr
  have hir := hr.2
  unfold mimi_addr_in_region at hir
  have hmod : (addr + size) % U32MOD < addr := by
    have hlt : addr + size - U32MOD < U32MOD := by
      simp only [U32MOD] at *
      omega
    have heq : (addr + size) % U32MOD = addr + size - U32MOD := by
      simp only [U32MOD] at *
      omega
    simp only [U32MOD] at *
    omega
  rw [if_pos hmod] at hir
  exact Bool.false_ne_true hir

/-- When neither interval wraps, a false mimi_ranges_overlap means the two
half-open intervals are disjoint. -/
theorem ranges_overlap_false_disjoint (a sa b sb : Nat)
    (hA : a + sa < U32MOD) (hB : b + sb < U32MOD)
    (h : mimi_ranges_overlap a sa b sb = false) :
    ∀ x, ¬(a ≤ x ∧ x < a + sa ∧ b ≤ x ∧ x < b + sb) := by
  intro x hx
  unfold mimi_ranges_overlap at h
  rw [Nat.mod_eq_of_lt hA, Nat.mod_eq_of_lt hB] at h
  simp only [decide_eq_false_iff_not, not_and, not_lt] at h
  omega

theorem ioRead_some_iff {file buf : List Nat} {off n : Nat}
    (h : ioRead file off n = some buf) :
    off + n ≤ file.length ∧ buf = (file.drop off).take n := by
  unfold ioRead at h
  by_cases hle : off + n ≤ file.length
  · rw [if_pos hle] at h
    simp only [Option.some.injEq] at h
    exact ⟨hle, h.symm⟩
  · rw [if_neg hle] at h
    cases h

theorem take_drop_length (file : List Nat) (off n : Nat) (h : off + n ≤ file.length) :
    ((file.drop off).take n).length = n := by
  simp only [List.length_take, List.length_drop]
  omega

theorem getD_drop_take (file : List Nat) (off n j : Nat) (hj : j < n) :
    ((file.drop off).take n).getD j 0 = file.getD (off + j) 0 := by
  rw [List.getD_eq_getElem?_getD, List.getD_eq_getElem?_getD]
  rw [List.getElem?_take, List.getElem?_drop]
  simp [hj]

theorem copyLoop_zero (file : List Nat) (fuel : Nat) (mem : Mem) (off dest bc : Nat) :
    copyLoop file fuel mem off dest 0 bc = (MIMI_OK, mem, bc) := by
  unfold copyLoop
  simp

/-- Behaviour of the 512-byte copy loop, by induction on the fuel:
whatever the outcome, only [dest, dest + remaining) is written; and on
MIMI_OK every byte of that range holds the corresponding file byte. -/
theorem copyLoop_spec (file : List Nat) (hfile : file.length < U32MOD) :
    ∀ fuel rem mem off dest bc, rem ≤ fuel → dest + rem ≤ U32MOD →
      (∀ a, (a < dest ∨ dest + rem ≤ a) →
        (copyLoop file fuel mem off dest rem bc).2.1 a = mem a) ∧
      ((copyLoop file fuel mem off dest rem bc).1 = MIMI_OK →
        ∀ j, j < rem →
          (copyLoop file fuel mem off dest rem bc).2.1 (dest + j) = file.getD (off + j) 0) := by
  intro fuel
  induction fuel with
  | zero =>
    intro rem mem off dest bc hrem hdest
    have h0 : rem = 0 := by omega
    subst h0
    rw [copyLoop_zero]
    exact ⟨fun a _ => rfl, fun _ j hj => by omega⟩
  | succ f ih =>
    intro rem mem off dest bc hrem hdest
    by_cases h0 : rem = 0
    · subst h0
      rw [copyLoop_zero]
      exact ⟨fun a _ => rfl, fun _ j hj => by omega⟩
    · have hstep : copyLoop file (f + 1) mem off dest rem bc =
        (let chunk := if rem > LOAD_BUFFER_SIZE then LOAD_BUFFER_SIZE else rem
         match ioRead file off chunk with
         | none => (MIMI_ERR_READ, mem, bc)
         | some buffer =>
           copyLoop file f (mimi_memcpy mem dest buffer)
             ((off + chunk) % U32MOD) ((dest + chunk) % U32MOD)
             (rem - chunk) ((bc + chunk) % U32MOD)) := by
        conv_lhs => rw [copyLoop]
        rw [if_neg h0]
      set chunk := if rem > LOAD_BUFFER_SIZE then LOAD_BUFFER_SIZE else rem with hchunk
      have hchunk_pos : 0 < chunk := by
        rw [hchunk]
        split
        · simp [LOAD_BUFFER_SIZE]
        · omega
      have hchunk_le : chunk ≤ rem := by
        rw [hchunk]
        split
        · simp only [LOAD_BUFFER_SIZE] at *
          omega
        · omega
      rcases hread : ioRead file off chunk with _ | buffer
      · rw [hstep]
        simp only [hread]
        refine ⟨?_, ?_⟩
        · intro a _
          trivial
        · intro hok
          exact absurd hok (by decide)
      · obtain ⟨hlen, hbuf⟩ := ioRead_some_iff hread
        have hbuflen : buffer.length = chunk := by
          rw [hbuf]
          exact take_drop_length file off chunk hlen
        have hoffmod : (off + chunk) % U32MOD = off + chunk :=
          Nat.mod_eq_of_lt (by omega)
        by_cases hbig : rem > LOAD_BUFFER_SIZE
        · -- a full 512-byte chunk, more to come
          have hc : chunk = LOAD_BUFFER_SIZE := by rw [hchunk, if_pos hbig]
          have hdmod : (dest + chunk) % U32MOD = dest + chunk := by
            apply Nat.mod_eq_of_lt
            simp only [LOAD_BUFFER_SIZE] at hc hbig
            omega
          have hrec := ih (rem - chunk) (mimi_memcpy mem dest buffer)
            (off + chunk) (dest + chunk) ((bc + chunk) % U32MOD)
            (by simp only [LOAD_BUFFER_SIZE] at hc; omega) (by omega)
          rw [hstep]
          simp only [hread, hoffmod, hdmod]
          constructor
          · intro a ha
            rw [hrec.1 a (by omega)]
            exact mimi_memcpy_frame buffer mem dest a (by omega) (by omega)
          · intro hok j hj
            by_cases hjc : j < chunk
            · rw [hrec.1 (dest + j) (by omega)]
              rw [mimi_memcpy_get buffer mem dest j (by omega) (by omega), hbuf]
              exact getD_drop_take file off chunk j hjc
            · have hj2 : dest + j = (dest + chunk) + (j - chunk) := by omega
              have hj3 : off + j = (off + chunk) + (j - chunk) := by omega
              rw [hj2, hj3]
              exact hrec.2 hok (j - chunk) (by omega)
        · -- final chunk: chunk = rem, the recursive call is the base case
          have hc : chunk = rem := by rw [hchunk, if_neg hbig]
          rw [hc] at hread hbuf
          rw [hstep]
          simp only [hc, hread, Nat.sub_self, copyLoop_zero]
          constructor
          · intro a ha
            exact mimi_memcpy_frame buffer mem dest a (by omega) (by omega)
          · intro _ j hj
            rw [mimi_memcpy_get buffer mem dest j (by omega) (by omega), hbuf]
            exact getD_drop_take file off rem j hj

/-- Whatever mimi_load_segment returns, memory outside
[p_vaddr, p_vaddr + p_memsz) is untouched, provided address validation is
on and p_filesz ≤ p_memsz. -/
theorem mimi_load_segment_frame (config : mimi_loader_config) (file : List Nat)
    (phdr : Elf32_Phdr) (mem : Mem) (bc bz : Nat)
    (hval : config.validate_addresses = true)
    (hv : phdr.p_vaddr < U32MOD) (hm : phdr.p_memsz < U32MOD)
    (hfs : phdr.p_filesz ≤ phdr.p_memsz) (hfile : file.length < U32MOD) :
    ∀ a, (a < phdr.p_vaddr ∨ phdr.p_vaddr + phdr.p_memsz ≤ a) →
      (mimi_load_segment config file phdr mem bc bz).2.2.1 a = mem a := by
  intro a ha
  unfold mimi_load_segment
  by_cases h0 : phdr.p_memsz = 0
  · simp [h0]
  · rw [if_neg h0]
    by_cases hvd : config.validate_addresses = true ∧
        mimi_addr_valid phdr.p_vaddr phdr.p_memsz (MIMI_MEM_WRITE ||| MIMI_MEM_RAM) config = false
    · rw [if_pos hvd]
    · rw [if_neg hvd]
      have hvalid : mimi_addr_valid phdr.p_vaddr phdr.p_memsz
          (MIMI_MEM_WRITE ||| MIMI_MEM_RAM) config = true := by
        cases hb : mimi_addr_valid phdr.p_vaddr phdr.p_memsz
            (MIMI_MEM_WRITE ||| MIMI_MEM_RAM) config with
        | false => exact absurd ⟨hval, hb⟩ hvd
        | true => rfl
      have hbound := mimi_addr_valid_bound _ _ _ _ hv hm hvalid
      rcases hcl : copyLoop file phdr.p_filesz mem phdr.p_offset phdr.p_vaddr phdr.p_filesz bc
        with ⟨err, mem1, bc1⟩
      have hcframe : mem1 a = mem a := by
        have h := (copyLoop_spec file hfile phdr.p_filesz phdr.p_filesz mem phdr.p_offset
          phdr.p_vaddr bc le_rfl (by omega)).1 a (by omega)
        rw [hcl] at h
        exact h
      simp only [hcl]
      by_cases herr : err ≠ MIMI_OK
      · rw [if_pos herr]
        exact hcframe
      · rw [if_neg herr]
        by_cases hz : config.zero_bss = true ∧ phdr.p_memsz > phdr.p_filesz
        · rw [if_pos hz]
          have hmod : (phdr.p_vaddr + phdr.p_filesz) % U32MOD = phdr.p_vaddr + phdr.p_filesz :=
            Nat.mod_eq_of_lt (by omega)
          have hms : mimi_memset mem1 ((phdr.p_vaddr + phdr.p_filesz) % U32MOD) 0
              (phdr.p_memsz - phdr.p_filesz) a = mem a := by
            rw [hmod]
            rw [mimi_memset_frame (phdr.p_memsz - phdr.p_filesz) mem1
              (phdr.p_vaddr + phdr.p_filesz) 0 a (by omega) (by omega)]
            exact hcframe
          by_cases hver : config.verify_after_load = true ∧ phdr.p_filesz > 0
          · rw [if_pos hver]
            split
            · exact hms
            · exact hms
          · rw [if_neg hver]
            exact hms
        · rw [if_neg hz]
          by_cases hver : config.verify_after_load = true ∧ phdr.p_filesz > 0
          · rw [if_pos hver]
            split
            · exact hcframe
            · exact hcframe
          · rw [if_neg hver]
            exact hcframe

/-- A successful mimi_load_segment records the segment as loaded, fills
[p_vaddr, p_vaddr + p_filesz) with the file bytes at p_offset, and (with
zero_bss on) zeroes [p_vaddr + p_filesz, p_vaddr + p_memsz). -/
theorem mimi_load_segment_ok (config : mimi_loader_config) (file : List Nat)
    (phdr : Elf32_Phdr) (mem : Mem) (bc bz : Nat)
    (hval : config.validate_addresses = true) (hzb : config.zero_bss = true)
    (hv : phdr.p_vaddr < U32MOD) (hm : phdr.p_memsz < U32MOD)
    (hfs : phdr.p_filesz ≤ phdr.p_memsz) (hfile : file.length < U32MOD)
    {info : mimi_segment_info} {mem2 : Mem} {bc2 bz2 : Nat}
    (heq : mimi_load_segment config file phdr mem bc bz = (MIMI_OK, info, mem2, bc2, bz2)) :
    info = { vaddr := phdr.p_vaddr, size := phdr.p_memsz, flags := phdr.p_flags,
             loaded := true } ∧
    (∀ j, j < phdr.p_filesz → mem2 (phdr.p_vaddr + j) = file.getD (phdr.p_offset + j) 0) ∧
    (∀ j, phdr.p_filesz ≤ j → j < phdr.p_memsz → mem2 (phdr.p_vaddr + j) = 0) := by
  unfold mimi_load_segment at heq
  by_cases h0 : phdr.p_memsz = 0
  · rw [if_pos h0] at heq
    simp only [Prod.mk.injEq] at heq
    obtain ⟨-, hinfo, hmem, -, -⟩ := heq
    refine ⟨by rw [← hinfo, h0], fun j hj => by omega, fun j hj1 hj2 => by omega⟩
  · rw [if_neg h0] at heq
    by_cases hvd : config.validate_addresses = true ∧
        mimi_addr_valid phdr.p_vaddr phdr.p_memsz (MIMI_MEM_WRITE ||| MIMI_MEM_RAM) config = false
    · rw [if_pos hvd] at heq
      simp only [Prod.mk.injEq] at heq
      exact absurd heq.1 (by decide)
    · rw [if_neg hvd] at heq
      have hvalid : mimi_addr_valid phdr.p_vaddr phdr.p_memsz
          (MIMI_MEM_WRITE ||| MIMI_MEM_RAM) config = true := by
        cases hb : mimi_addr_valid phdr.p_vaddr phdr.p_memsz
            (MIMI_MEM_WRITE ||| MIMI_MEM_RAM) config with
        | false => exact absurd ⟨hval, hb⟩ hvd
        | true => rfl
      have hbound := mimi_addr_valid_bound _ _ _ _ hv hm hvalid
      rcases hcl : copyLoop file phdr.p_filesz mem phdr.p_offset phdr.p_vaddr phdr.p_filesz bc
        with ⟨err, mem1, bc1⟩
      simp only [hcl] at heq
      by_cases herr : err ≠ MIMI_OK
      · rw [if_pos herr] at heq
        simp only [Prod.mk.injEq] at heq
        exact absurd heq.1 herr
      · rw [if_neg herr] at heq
        rw [not_not] at herr
        have hcspec := copyLoop_spec file hfile phdr.p_filesz phdr.p_filesz mem phdr.p_offset
          phdr.p_vaddr bc le_rfl (by omega)
        rw [hcl] at hcspec
        have hcopy := hcspec.2 (by rw [herr])
        by_cases hz : config.zero_bss = true ∧ phdr.p_memsz > phdr.p_filesz
        · rw [if_pos hz] at heq
          have hmod : (phdr.p_vaddr + phdr.p_filesz) % U32MOD =
              phdr.p_vaddr + phdr.p_filesz := Nat.mod_eq_of_lt (by omega)
          by_cases hver : config.verify_after_load = true ∧ phdr.p_filesz > 0
          · rw [if_pos hver] at heq
            by_cases hv2 : verifyLoop file phdr.p_filesz
                (mimi_memset mem1 ((phdr.p_vaddr + phdr.p_filesz) % U32MOD) 0
                  (phdr.p_memsz - phdr.p_filesz))
                phdr.p_offset phdr.p_vaddr phdr.p_filesz ≠ MIMI_OK
            · rw [if_pos hv2] at heq
              simp only [Prod.mk.injEq] at heq
              exact absurd heq.1 hv2
            · rw [if_neg hv2] at heq
              simp only [Prod.mk.injEq] at heq
              obtain ⟨-, hinfo, hmem, -, -⟩ := heq
              refine ⟨hinfo.symm, ?_, ?_⟩
              · intro j hj
                rw [← hmem, hmod]
                rw [mimi_memset_frame (phdr.p_memsz - phdr.p_filesz) mem1
                  (phdr.p_vaddr + phdr.p_filesz) 0 (phdr.p_vaddr + j) (by omega) (by omega)]
                exact hcopy j hj
              · intro j hj1 hj2
                rw [← hmem, hmod]
                have hj3 : phdr.p_vaddr + j = (phdr.p_vaddr + phdr.p_filesz) + (j - phdr.p_filesz) := by
                  omega
                rw [hj3]
                exact mimi_memset_get (phdr.p_memsz - phdr.p_filesz) mem1
                  (phdr.p_vaddr + phdr.p_filesz) 0 (j - phdr.p_filesz) (by omega) (by omega)
          · rw [if_neg hver] at heq
            simp only [Prod.mk.injEq] at heq
            obtain ⟨-, hinfo, hmem, -, -⟩ := heq
            refine ⟨hinfo.symm, ?_, ?_⟩
            · intro j hj
              rw [← hmem, hmod]
              rw [mimi_memset_frame (phdr.p_memsz - phdr.p_filesz) mem1
                (phdr.p_vaddr + phdr.p_filesz) 0 (phdr.p_vaddr + j) (by omega) (by omega)]
              exact hcopy j hj
            · intro j hj1 hj2
              rw [← hmem, hmod]
              have hj3 : phdr.p_vaddr + j = (phdr.p_vaddr + phdr.p_filesz) + (j - phdr.p_filesz) := by
                omega
              rw [hj3]
              exact mimi_memset_get (phdr.p_memsz - phdr.p_filesz) mem1
                (phdr.p_vaddr + phdr.p_filesz) 0 (j - phdr.p_filesz) (by omega) (by omega)
        · rw [if_neg hz] at heq
          have hze : phdr.p_memsz = phdr.p_filesz := by
            rcases not_and_or.mp hz with h | h
            · exact absurd hzb h
            · omega
          by_cases hver : config.verify_after_load = true ∧ phdr.p_filesz > 0
          · rw [if_pos hver] at heq
            by_cases hv2 : verifyLoop file phdr.p_filesz mem1
                phdr.p_offset phdr.p_vaddr phdr.p_filesz ≠ MIMI_OK
            · rw [if_pos hv2] at heq
              simp only [Prod.mk.injEq] at heq
              exact absurd heq.1 hv2
            · rw [if_neg hv2] at heq
              simp only [Prod.mk.injEq] at heq
              obtain ⟨-, hinfo, hmem, -, -⟩ := heq
              refine ⟨hinfo.symm, ?_, fun j hj1 hj2 => by omega⟩
              intro j hj
              rw [← hmem]
              exact hcopy j hj
          · rw [if_neg hver] at heq
            simp only [Prod.mk.injEq] at heq
            obtain ⟨-, hinfo, hmem, -, -⟩ := heq
            refine ⟨hinfo.symm, ?_, fun j hj1 hj2 => by omega⟩
            intro j hj
            rw [← hmem]
            exact hcopy j hj

/-- When pass 1 completes without error, every loadable program header it
examined was address-validated and overlap-checked: it does not overlap any
previously recorded (vaddr, memsz) pair, nor any other loadable header
examined before it. -/
theorem pass1_loop_ok (config : mimi_loader_config) (file : List Nat) (ehdr : Elf32_Ehdr)
    (hval : config.validate_addresses = true) :
    ∀ n i st err1 st1, pass1_loop config file ehdr n i st = (err1, st1) → err1 = MIMI_OK →
      ∀ k, i ≤ k → k < i + n → loadableAt file ehdr k →
        (mimi_addr_valid (phdrAt file ehdr k).p_vaddr (phdrAt file ehdr k).p_memsz
          (MIMI_MEM_WRITE ||| MIMI_MEM_RAM) config = true) ∧
        (∀ s ∈ st.seg_info, mimi_ranges_overlap (phdrAt file ehdr k).p_vaddr
          (phdrAt file ehdr k).p_memsz s.1 s.2 = false) ∧
        (∀ j, i ≤ j → j < k → loadableAt file ehdr j →
          mimi_ranges_overlap (phdrAt file ehdr k).p_vaddr (phdrAt file ehdr k).p_memsz
            (phdrAt file ehdr j).p_vaddr (phdrAt file ehdr j).p_memsz = false) := by
  intro n
  induction n with
  | zero =>
    intro i st err1 st1 hloop herr k hk1 hk2
    omega
  | succ n ih =>
    intro i st err1 st1 hloop herr k hk1 hk2 hk3
    simp only [pass1_loop] at hloop
    rcases hrd : ioRead file ((ehdr.e_phoff + i * 32) % U32MOD) 32 with _ | pb
    · simp only [hrd, Prod.mk.injEq] at hloop
      rw [← hloop.1] at herr
      exact absurd herr (by decide)
    · simp only [hrd] at hloop
      have hpb : pb = phdrBytes file ehdr i := (ioRead_some_iff hrd).2
      have hdec : decodePhdr pb = phdrAt file ehdr i := by rw [hpb]; rfl
      rw [hdec] at hloop
      by_cases ht : (phdrAt file ehdr i).p_type ≠ PT_LOAD
      · rw [if_pos ht] at hloop
        have hnl : ¬loadableAt file ehdr i := fun hl => ht hl.1
        rcases Nat.eq_or_lt_of_le hk1 with heq | hlt
        · exact absurd (heq ▸ hk3) hnl
        · obtain ⟨hA, hB, hC⟩ := ih (i + 1) st err1 st1 hloop herr k hlt (by omega) hk3
          refine ⟨hA, hB, fun j hj1 hj2 hj3 => ?_⟩
          rcases Nat.eq_or_lt_of_le hj1 with hje | hjl
          · exact absurd (hje ▸ hj3) hnl
          · exact hC j hjl hj2 hj3
      · rw [if_neg ht] at hloop
        by_cases hm0 : (phdrAt file ehdr i).p_memsz = 0
        · rw [if_pos hm0] at hloop
          have hnl : ¬loadableAt file ehdr i := fun hl => hl.2 hm0
          rcases Nat.eq_or_lt_of_le hk1 with heq | hlt
          · exact absurd (heq ▸ hk3) hnl
          · obtain ⟨hA, hB, hC⟩ := ih (i + 1) st err1 st1 hloop herr k hlt (by omega) hk3
            refine ⟨hA, hB, fun j hj1 hj2 hj3 => ?_⟩
            rcases Nat.eq_or_lt_of_le hj1 with hje | hjl
            · exact absurd (hje ▸ hj3) hnl
            · exact hC j hjl hj2 hj3
        · rw [if_neg hm0] at hloop
          by_cases hvd : config.validate_addresses = true ∧
              mimi_addr_valid (phdrAt file ehdr i).p_vaddr (phdrAt file ehdr i).p_memsz
                (MIMI_MEM_WRITE ||| MIMI_MEM_RAM) config = false
          · rw [if_pos hvd] at hloop
            simp only [Prod.mk.injEq] at hloop
            rw [← hloop.1] at herr
            exact absurd herr (by decide)
          · rw [if_neg hvd] at hloop
            have hA_i : mimi_addr_valid (phdrAt file ehdr i).p_vaddr
                (phdrAt file ehdr i).p_memsz (MIMI_MEM_WRITE ||| MIMI_MEM_RAM) config = true := by
              cases hb : mimi_addr_valid (phdrAt file ehdr i).p_vaddr
                  (phdrAt file ehdr i).p_memsz (MIMI_MEM_WRITE ||| MIMI_MEM_RAM) config with
              | false => exact absurd ⟨hval, hb⟩ hvd
              | true => rfl
            by_cases hov : st.seg_info.any (fun s =>
                mimi_ranges_overlap (phdrAt file ehdr i).p_vaddr
                  (phdrAt file ehdr i).p_memsz s.1 s.2) = true
            · rw [if_pos hov] at hloop
              simp only [Prod.mk.injEq] at hloop
              rw [← hloop.1] at herr
              exact absurd herr (by decide)
            · rw [if_neg hov] at hloop
              have hov2 : ∀ s ∈ st.seg_info,
                  mimi_ranges_overlap (phdrAt file ehdr i).p_vaddr
                    (phdrAt file ehdr i).p_memsz s.1 s.2 = false := by
                rw [Bool.not_eq_true, List.any_eq_false] at hov
                exact fun s hs => Bool.eq_false_iff.mpr (hov s hs)
              rcases Nat.eq_or_lt_of_le hk1 with heqk | hltk
              · subst heqk
                exact ⟨hA_i, hov2, fun j hj1 hj2 _ => by omega⟩
              · obtain ⟨hA, hB, hC⟩ := ih (i + 1) _ err1 st1 hloop herr k hltk (by omega) hk3
                refine ⟨hA, ?_, fun j hj1 hj2 hj3 => ?_⟩
                · intro s hs
                  exact hB s (by simp [hs])
                · rcases Nat.eq_or_lt_of_le hj1 with hje | hjl
                  · subst hje
                    exact hB ((phdrAt file ehdr i).p_vaddr, (phdrAt file ehdr i).p_memsz)
                      (by simp)
                  · exact hC j hjl hj2 hj3

/-- Whatever pass 2 returns, it writes only inside the PT_LOAD segments'
[p_vaddr, p_vaddr + p_memsz) ranges (address validation on, and
p_filesz ≤ p_memsz for each PT_LOAD header in range). -/
theorem pass2_loop_frame (config : mimi_loader_config) (file : List Nat) (ehdr : Elf32_Ehdr)
    (hval : config.validate_addresses = true) (hfile : file.length < U32MOD) :
    ∀ n i seg_index segments mem bc bz,
      (∀ j, i ≤ j → j < i + n → (phdrAt file ehdr j).p_type = PT_LOAD →
        (phdrAt file ehdr j).p_filesz ≤ (phdrAt file ehdr j).p_memsz) →
      ∀ a,
      (∀ j, i ≤ j → j < i + n → (phdrAt file ehdr j).p_type = PT_LOAD →
        ¬((phdrAt file ehdr j).p_vaddr ≤ a ∧
          a < (phdrAt file ehdr j).p_vaddr + (phdrAt file ehdr j).p_memsz)) →
      (pass2_loop config file ehdr n i seg_index segments mem bc bz).2.2.2.1 a = mem a := by
  intro n
  induction n with
  | zero =>
    intro i seg_index segments mem bc bz _ a _
    rfl
  | succ n ih =>
    intro i seg_index segments mem bc bz hfs a hout
    simp only [pass2_loop]
    rcases hrd : ioRead file ((ehdr.e_phoff + i * 32) % U32MOD) 32 with _ | pb
    · simp only [hrd]
    · simp only [hrd]
      have hpb : pb = phdrBytes file ehdr i := (ioRead_some_iff hrd).2
      have hdec : decodePhdr pb = phdrAt file ehdr i := by rw [hpb]; rfl
      rw [hdec]
      by_cases ht : (phdrAt file ehdr i).p_type ≠ PT_LOAD
      · rw [if_pos ht]
        exact ih (i + 1) seg_index segments mem bc bz
          (fun j hj1 hj2 => hfs j (by omega) (by omega)) a
          (fun j hj1 hj2 => hout j (by omega) (by omega))
      · rw [if_neg ht]
        rw [not_not] at ht
        by_cases hbrk : MIMI_MAX_SEGMENTS ≤ seg_index
        · rw [if_pos hbrk]
        · rw [if_neg hbrk]
          rcases hls : mimi_load_segment config file (phdrAt file ehdr i) mem bc bz
            with ⟨err, info, mem2, bc2, bz2⟩
          simp only [hls]
          have hseg_frame : mem2 a = mem a := by
            have h := mimi_load_segment_frame config file (phdrAt file ehdr i) mem bc bz hval
              (decodePhdr_vaddr_lt _) (decodePhdr_memsz_lt _)
              (hfs i (by omega) (by omega) ht) hfile a
              (by have := hout i (by omega) (by omega) ht; omega)
            rw [hls] at h
            exact h
          by_cases herr : err ≠ MIMI_OK
          · rw [if_pos herr]
            exact hseg_frame
          · rw [if_neg herr]
            rw [ih (i + 1) (seg_index + 1) (segments ++ [info]) mem2 bc2 bz2
              (fun j hj1 hj2 => hfs j (by omega) (by omega)) a
              (fun j hj1 hj2 => hout j (by omega) (by omega))]
            exact hseg_frame

/-- A successful mimi_load_segment always records loaded = true. -/
theorem mimi_load_segment_loaded (config : mimi_loader_config) (file : List Nat)
    (phdr : Elf32_Phdr) (mem : Mem) (bc bz : Nat)
    {info : mimi_segment_info} {mem2 : Mem} {bc2 bz2 : Nat}
    (heq : mimi_load_segment config file phdr mem bc bz = (MIMI_OK, info, mem2, bc2, bz2)) :
    info.loaded = true := by
  unfold mimi_load_segment at heq
  by_cases h0 : phdr.p_memsz = 0
  · rw [if_pos h0] at heq
    simp only [Prod.mk.injEq] at heq
    rw [← heq.2.1]
  · rw [if_neg h0] at heq
    by_cases hvd : config.validate_addresses = true ∧
        mimi_addr_valid phdr.p_vaddr phdr.p_memsz (MIMI_MEM_WRITE ||| MIMI_MEM_RAM) config = false
    · rw [if_pos hvd] at heq
      simp only [Prod.mk.injEq] at heq
      exact absurd heq.1 (by decide)
    · rw [if_neg hvd] at heq
      rcases hcl : copyLoop file phdr.p_filesz mem phdr.p_offset phdr.p_vaddr phdr.p_filesz bc
        with ⟨err, mem1, bc1⟩
      simp only [hcl] at heq
      by_cases herr : err ≠ MIMI_OK
      · rw [if_pos herr] at heq
        simp only [Prod.mk.injEq] at heq
        exact absurd heq.1 herr
      · rw [if_neg herr] at heq
        by_cases hz : config.zero_bss = true ∧ phdr.p_memsz > phdr.p_filesz
        · rw [if_pos hz] at heq
          by_cases hver : config.verify_after_load = true ∧ phdr.p_filesz > 0
          · rw [if_pos hver] at heq
            by_cases hv2 : verifyLoop file phdr.p_filesz
                (mimi_memset mem1 ((phdr.p_vaddr + phdr.p_filesz) % U32MOD) 0
                  (phdr.p_memsz - phdr.p_filesz))
                phdr.p_offset phdr.p_vaddr phdr.p_filesz ≠ MIMI_OK
            · rw [if_pos hv2] at heq
              simp only [Prod.mk.injEq] at heq
              exact absurd heq.1 hv2
            · rw [if_neg hv2] at heq
              simp only [Prod.mk.injEq] at heq
              rw [← heq.2.1]
          · rw [if_neg hver] at heq
            simp only [Prod.mk.injEq] at heq
            rw [← heq.2.1]
        · rw [if_neg hz] at heq
          by_cases hver : config.verify_after_load = true ∧ phdr.p_filesz > 0
          · rw [if_pos hver] at heq
            by_cases hv2 : verifyLoop file phdr.p_filesz mem1
                phdr.p_offset phdr.p_vaddr phdr.p_filesz ≠ MIMI_OK
            · rw [if_pos hv2] at heq
              simp only [Prod.mk.injEq] at heq
              exact absurd heq.1 hv2
            · rw [if_neg hv2] at heq
              simp only [Prod.mk.injEq] at heq
              rw [← heq.2.1]
          · rw [if_neg hver] at heq
            simp only [Prod.mk.injEq] at heq
            rw [← heq.2.1]

/-- Pass 2 on success materializes every PT_LOAD header it was given: the
file bytes land at [p_vaddr, p_vaddr + p_filesz) and the BSS tail
[p_vaddr + p_filesz, p_vaddr + p_memsz) is zeroed -- provided the headers
in range are pairwise disjoint, each has p_filesz ≤ p_memsz, and the
PT_LOAD count fits under MIMI_MAX_SEGMENTS so the break never fires. -/
theorem pass2_loop_ok (config : mimi_loader_config) (file : List Nat) (ehdr : Elf32_Ehdr)
    (hval : config.validate_addresses = true) (hzb : config.zero_bss = true)
    (hfile : file.length < U32MOD) :
    ∀ n i seg_index segments mem bc bz err2 si2 segs2 mem2 bc2 bz2,
      pass2_loop config file ehdr n i seg_index segments mem bc bz
        = (err2, si2, segs2, mem2, bc2, bz2) →
      err2 = MIMI_OK →
      seg_index + ptLoadCountFrom file ehdr n i ≤ MIMI_MAX_SEGMENTS →
      (∀ j, i ≤ j → j < i + n → (phdrAt file ehdr j).p_type = PT_LOAD →
        (phdrAt file ehdr j).p_filesz ≤ (phdrAt file ehdr j).p_memsz) →
      (∀ j k, i ≤ j → j < k → k < i + n → loadableAt file ehdr j → loadableAt file ehdr k →
        ∀ x, ¬((phdrAt file ehdr j).p_vaddr ≤ x ∧
               x < (phdrAt file ehdr j).p_vaddr + (phdrAt file ehdr j).p_memsz ∧
               (phdrAt file ehdr k).p_vaddr ≤ x ∧
               x < (phdrAt file ehdr k).p_vaddr + (phdrAt file ehdr k).p_memsz)) →
      ∀ j, i ≤ j → j < i + n → (phdrAt file ehdr j).p_type = PT_LOAD →
        (∀ b, b < (phdrAt file ehdr j).p_filesz →
          mem2 ((phdrAt file ehdr j).p_vaddr + b) =
            file.getD ((phdrAt file ehdr j).p_offset + b) 0) ∧
        (∀ b, (phdrAt file ehdr j).p_filesz ≤ b → b < (phdrAt file ehdr j).p_memsz →
          mem2 ((phdrAt file ehdr j).p_vaddr + b) = 0) := by
  intro n
  induction n with
  | zero =>
    intro i seg_index segments mem bc bz err2 si2 segs2 mem2 bc2 bz2 _ _ _ _ _ j hj1 hj2
    omega
  | succ n ih =>
    intro i seg_index segments mem bc bz err2 si2 segs2 mem2 bc2 bz2 hloop herr2 hcount
      hfs hdisj j hj1 hj2 hjload
    simp only [pass2_loop] at hloop
    rcases hrd : ioRead file ((ehdr.e_phoff + i * 32) % U32MOD) 32 with _ | pb
    · simp only [hrd, Prod.mk.injEq] at hloop
      rw [← hloop.1] at herr2
      exact absurd herr2 (by decide)
    · simp only [hrd] at hloop
      have hpb : pb = phdrBytes file ehdr i := (ioRead_some_iff hrd).2
      have hdec : decodePhdr pb = phdrAt file ehdr i := by rw [hpb]; rfl
      rw [hdec] at hloop
      simp only [ptLoadCountFrom] at hcount
      by_cases ht : (phdrAt file ehdr i).p_type ≠ PT_LOAD
      · rw [if_pos ht] at hloop
        rw [if_neg ht] at hcount
        have hji : i < j := by
          rcases Nat.eq_or_lt_of_le hj1 with hje | hjl
          · exact absurd (hje ▸ hjload) ht
          · exact hjl
        exact ih (i + 1) seg_index segments mem bc bz err2 si2 segs2 mem2 bc2 bz2 hloop herr2
          (by omega)
          (fun j' h1 h2 => hfs j' (by omega) (by omega))
          (fun j' k' h1 h2 h3 => hdisj j' k' (by omega) h2 (by omega))
          j hji (by omega) hjload
      · rw [if_neg ht] at hloop
        rw [not_not] at ht
        rw [if_pos ht] at hcount
        have hbrk : ¬(MIMI_MAX_SEGMENTS ≤ seg_index) := by
          simp only [MIMI_MAX_SEGMENTS] at *
          omega
        rw [if_neg hbrk] at hloop
        rcases hls : mimi_load_segment config file (phdrAt file ehdr i) mem bc bz
          with ⟨err, info, memA, bcA, bzA⟩
        simp only [hls] at hloop
        by_cases herr : err ≠ MIMI_OK
        · rw [if_pos herr] at hloop
          simp only [Prod.mk.injEq] at hloop
          rw [← hloop.1] at herr2
          exact absurd herr2 herr
        · rw [if_neg herr] at hloop
          rw [not_not] at herr
          rw [herr] at hls
          have hpost := mimi_load_segment_ok config file (phdrAt file ehdr i) mem bc bz
            hval hzb (decodePhdr_vaddr_lt _) (decodePhdr_memsz_lt _)
            (hfs i (by omega) (by omega) ht) hfile hls
          rcases Nat.eq_or_lt_of_le hj1 with hje | hjl
          · -- the segment loaded at this very iteration
            subst hje
            have hframe : ∀ a, (phdrAt file ehdr i).p_vaddr ≤ a →
                a < (phdrAt file ehdr i).p_vaddr + (phdrAt file ehdr i).p_memsz →
                mem2 a = memA a := by
              intro a ha1 ha2
              have hfr := pass2_loop_frame config file ehdr hval hfile n (i + 1)
                (seg_index + 1) (segments ++ [info]) memA bcA bzA
                (fun j' h1 h2 => hfs j' (by omega) (by omega)) a
                (fun j' h1 h2 ht' => by
                  intro hcontra
                  by_cases hm0 : (phdrAt file ehdr j').p_memsz = 0
                  · omega
                  · exact hdisj i j' (by omega) (by omega) (by omega)
                      ⟨ht, by omega⟩ ⟨ht', hm0⟩ a ⟨ha1, ha2, hcontra.1, hcontra.2⟩)
              rw [hloop] at hfr
              exact hfr
            refine ⟨?_, ?_⟩
            · intro b hb
              rw [hframe ((phdrAt file ehdr i).p_vaddr + b) (by omega)
                (by have := hfs i (by omega) (by omega) ht; omega)]
              exact hpost.2.1 b hb
            · intro b hb1 hb2
              rw [hframe ((phdrAt file ehdr i).p_vaddr + b) (by omega) (by omega)]
              exact hpost.2.2 b hb1 hb2
          · -- a later segment: induction hypothesis on the tail
            exact ih (i + 1) (seg_index + 1) (segments ++ [info]) memA bcA bzA
              err2 si2 segs2 mem2 bc2 bz2 hloop herr2 (by omega)
              (fun j' h1 h2 => hfs j' (by omega) (by omega))
              (fun j' k' h1 h2 h3 => hdisj j' k' (by omega) h2 (by omega))
              j hjl (by omega) hjload

/-- On success, pass 2 has processed min(number of PT_LOAD headers,
MIMI_MAX_SEGMENTS) segments -- every PT_LOAD header counts, including those
with p_memsz = 0 -- and every recorded segment is marked loaded. -/
theorem pass2_loop_count (config : mimi_loader_config) (file : List Nat) (ehdr : Elf32_Ehdr) :
    ∀ n i seg_index segments mem bc bz err2 si2 segs2 mem2 bc2 bz2,
      pass2_loop config file ehdr n i seg_index segments mem bc bz
        = (err2, si2, segs2, mem2, bc2, bz2) →
      err2 = MIMI_OK → seg_index ≤ MIMI_MAX_SEGMENTS →
      si2 = min (seg_index + ptLoadCountFrom file ehdr n i) MIMI_MAX_SEGMENTS ∧
      ((∀ s ∈ segments, s.loaded = true) → ∀ s ∈ segs2, s.loaded = true) := by
  intro n
  induction n with
  | zero =>
    intro i seg_index segments mem bc bz err2 si2 segs2 mem2 bc2 bz2 hloop _ hsi
    simp only [pass2_loop, Prod.mk.injEq] at hloop
    obtain ⟨-, h1, h2, -, -, -⟩ := hloop
    subst h1
    subst h2
    exact ⟨by simp only [ptLoadCountFrom]; omega, fun h => h⟩
  | succ n ih =>
    intro i seg_index segments mem bc bz err2 si2 segs2 mem2 bc2 bz2 hloop herr2 hsi
    simp only [pass2_loop] at hloop
    rcases hrd : ioRead file ((ehdr.e_phoff + i * 32) % U32MOD) 32 with _ | pb
    · simp only [hrd, Prod.mk.injEq] at hloop
      rw [← hloop.1] at herr2
      exact absurd herr2 (by decide)
    · simp only [hrd] at hloop
      have hpb : pb = phdrBytes file ehdr i := (ioRead_some_iff hrd).2
      have hdec : decodePhdr pb = phdrAt file ehdr i := by rw [hpb]; rfl
      rw [hdec] at hloop
      simp only [ptLoadCountFrom]
      by_cases ht : (phdrAt file ehdr i).p_type ≠ PT_LOAD
      · rw [if_pos ht] at hloop
        rw [if_neg (by exact fun h => ht h)]
        have := ih (i + 1) seg_index segments mem bc bz err2 si2 segs2 mem2 bc2 bz2 hloop
          herr2 hsi
        exact ⟨by omega, this.2⟩
      · rw [if_neg ht] at hloop
        rw [not_not] at ht
        rw [if_pos ht]
        by_cases hbrk : MIMI_MAX_SEGMENTS ≤ seg_index
        · rw [if_pos hbrk] at hloop
          simp only [Prod.mk.injEq] at hloop
          obtain ⟨-, h1, h2, -, -, -⟩ := hloop
          subst h1
          subst h2
          exact ⟨by omega, fun h => h⟩
        · rw [if_neg hbrk] at hloop
          rcases hls : mimi_load_segment config file (phdrAt file ehdr i) mem bc bz
            with ⟨err, info, memA, bcA, bzA⟩
          simp only [hls] at hloop
          by_cases herr : err ≠ MIMI_OK
          · rw [if_pos herr] at hloop
            simp only [Prod.mk.injEq] at hloop
            rw [← hloop.1] at herr2
            exact absurd herr2 herr
          · rw [if_neg herr] at hloop
            rw [not_not] at herr
            rw [herr] at hls
            have hloaded := mimi_load_segment_loaded config file (phdrAt file ehdr i)
              mem bc bz hls
            have := ih (i + 1) (seg_index + 1) (segments ++ [info]) memA bcA bzA
              err2 si2 segs2 mem2 bc2 bz2 hloop herr2 (by simp only [MIMI_MAX_SEGMENTS] at *; omega)
            refine ⟨by omega, fun h => this.2 ?_⟩
            intro s hs
            rcases List.mem_append.mp hs with hs | hs
            · exact h s hs
            · rw [List.mem_singleton.mp hs]
              exact hloaded

theorem ptLoadCountFrom_le (file : List Nat) (ehdr : Elf32_Ehdr) :
    ∀ n i, ptLoadCountFrom file ehdr n i ≤ n := by
  intro n
  induction n with
  | zero => intro i; simp [ptLoadCountFrom]
  | succ n ih =>
    intro i
    simp only [ptLoadCountFrom]
    have := ih (i + 1)
    split <;> omega

/-- Decomposition of a successful mimi_elf_load run: the header was read
and validated, pass 1 accepted at least one segment, and pass 2 returned
MIMI_OK with the final memory, segment count and segment table. -/
theorem mimi_elf_load_ok_cases (config : mimi_loader_config) (file : List Nat) (mem : Mem)
    (hok : (mimi_elf_load config file mem).1.status = MIMI_OK) :
    ∃ st si segs bc2 bz2,
      52 ≤ file.length ∧
      mimi_elf_validate_header (ehdrOf file) = MIMI_OK ∧
      pass1_loop config file (ehdrOf file) (min (ehdrOf file).e_phnum MIMI_MAX_SEGMENTS) 0
        pass1_init = (MIMI_OK, st) ∧
      st.seg_info.length ≠ 0 ∧
      pass2_loop config file (ehdrOf file) (ehdrOf file).e_phnum 0 0 [] mem 0 0 =
        (MIMI_OK, si, segs, (mimi_elf_load config file mem).2, bc2, bz2) ∧
      (mimi_elf_load config file mem).1.segment_count = si ∧
      (mimi_elf_load config file mem).1.segments = segs := by
  unfold mimi_elf_load at hok ⊢
  rcases hrd : ioRead file 0 52 with _ | hb
  · simp only [hrd] at hok
    exact absurd hok (by decide)
  · have hb_eq : hb = file.take 52 := by
      have := (ioRead_some_iff hrd).2
      simpa using this
    have hlen52 : 52 ≤ file.length := by
      have := (ioRead_some_iff hrd).1
      omega
    have hehdr : decodeEhdr hb = ehdrOf file := by rw [hb_eq]; rfl
    simp only [hrd] at hok ⊢
    simp only [hehdr] at hok ⊢
    by_cases hv : mimi_elf_validate_header (ehdrOf file) ≠ MIMI_OK
    · rw [if_pos hv] at hok
      exact absurd hok hv
    · rw [if_neg hv] at hok ⊢
      rw [not_not] at hv
      rcases hp1 : pass1_loop config file (ehdrOf file)
          (min (ehdrOf file).e_phnum MIMI_MAX_SEGMENTS) 0 pass1_init with ⟨err1, st⟩
      simp only [hp1] at hok ⊢
      by_cases he1 : err1 ≠ MIMI_OK
      · rw [if_pos he1] at hok
        exact absurd hok he1
      · rw [if_neg he1] at hok ⊢
        rw [not_not] at he1
        subst he1
        by_cases hl0 : st.seg_info.length = 0
        · rw [if_pos hl0] at hok
          simp at hok
        · rw [if_neg hl0] at hok ⊢
          rcases hp2 : pass2_loop config file (ehdrOf file) (ehdrOf file).e_phnum 0 0 [] mem 0 0
            with ⟨err2, si, segs, mem2, bc2, bz2⟩
          simp only [hp2] at hok ⊢
          by_cases he2 : err2 ≠ MIMI_OK
          · rw [if_pos he2] at hok
            exact absurd hok he2
          · rw [if_neg he2] at hok ⊢
            rw [not_not] at he2
            subst he2
            exact ⟨st, si, segs, bc2, bz2, hlen52, hv, rfl, hl0, rfl, rfl, rfl⟩

/-- On a successful load with e_phnum ≤ 16, the loadable program headers
are pairwise disjoint as intervals (pass 1 saw and overlap-checked all of
them, and their validated ranges cannot wrap). -/
theorem load_ok_disjoint (config : mimi_loader_config) (file : List Nat) (mem : Mem)
    (hval : config.validate_addresses = true)
    (hphnum : (ehdrOf file).e_phnum ≤ MIMI_MAX_SEGMENTS)
    (hok : (mimi_elf_load config file mem).1.status = MIMI_OK) :
    ∀ j k, j < k → k < (ehdrOf file).e_phnum →
      loadableAt file (ehdrOf file) j → loadableAt file (ehdrOf file) k →
      ∀ x, ¬((phdrAt file (ehdrOf file) j).p_vaddr ≤ x ∧
             x < (phdrAt file (ehdrOf file) j).p_vaddr + (phdrAt file (ehdrOf file) j).p_memsz ∧
             (phdrAt file (ehdrOf file) k).p_vaddr ≤ x ∧
             x < (phdrAt file (ehdrOf file) k).p_vaddr + (phdrAt file (ehdrOf file) k).p_memsz) := by
  intro j k hjk hk hlj hlk x hx
  obtain ⟨st, si, segs, bc2, bz2, -, -, hp1, -, -, -, -⟩ :=
    mimi_elf_load_ok_cases config file mem hok
  have hmin : min (ehdrOf file).e_phnum MIMI_MAX_SEGMENTS = (ehdrOf file).e_phnum :=
    Nat.min_eq_left hphnum
  rw [hmin] at hp1
  have h1 := pass1_loop_ok config file (ehdrOf file) hval (ehdrOf file).e_phnum 0 pass1_init
    MIMI_OK st hp1 rfl
  obtain ⟨hAk, -, hCk⟩ := h1 k (by omega) (by omega) hlk
  obtain ⟨hAj, -, -⟩ := h1 j (by omega) (by omega) hlj
  have hBk : (phdrAt file (ehdrOf file) k).p_vaddr + (phdrAt file (ehdrOf file) k).p_memsz
      < U32MOD :=
    mimi_addr_valid_bound _ _ _ _ (decodePhdr_vaddr_lt _) (decodePhdr_memsz_lt _) hAk
  have hBj : (phdrAt file (ehdrOf file) j).p_vaddr + (phdrAt file (ehdrOf file) j).p_memsz
      < U32MOD :=
    mimi_addr_valid_bound _ _ _ _ (decodePhdr_vaddr_lt _) (decodePhdr_memsz_lt _) hAj
  have hov := hCk j (by omega) hjk hlj
  have hdisj := ranges_overlap_false_disjoint _ _ _ _ hBk hBj hov x
  exact hdisj ⟨hx.2.2.1, hx.2.2.2, hx.1, hx.2.1⟩

/-- C1 (amended): every rejection decided by the header check or by pass 1
(including the no-loadable check) leaves memory completely untouched -- the
first min(e_phnum, 16) program headers are fully validated before any byte
is written.  (Pass-2 failures are excluded: they can follow earlier
writes, see the counterexample.) -/
theorem c1_pass1_gate (config : mimi_loader_config) (file : List Nat) (mem : Mem)
    (h : pass1_accepts config file = false) :
    (mimi_elf_load config file mem).1.status ≠ MIMI_OK ∧
    (mimi_elf_load config file mem).2 = mem := by
  unfold pass1_accepts at h
  unfold mimi_elf_load
  rcases hrd : ioRead file 0 52 with _ | hb
  · simp only [hrd]
    exact ⟨by simp, by trivial⟩
  · simp only [hrd] at h ⊢
    by_cases hv : mimi_elf_validate_header (decodeEhdr hb) ≠ MIMI_OK
    · rw [if_pos hv]
      exact ⟨hv, by trivial⟩
    · rw [if_neg hv]
      rw [if_neg hv] at h
      rcases hp1 : pass1_loop config file (decodeEhdr hb)
          (min (decodeEhdr hb).e_phnum MIMI_MAX_SEGMENTS) 0 pass1_init with ⟨err1, st⟩
      simp only [hp1] at h ⊢
      by_cases he1 : err1 ≠ MIMI_OK
      · rw [if_pos he1]
        exact ⟨he1, by trivial⟩
      · rw [if_neg he1]
        rw [not_not] at he1
        have hl0 : st.seg_info.length = 0 := by
          rw [he1] at h
          simpa using h
        rw [if_pos hl0]
        exact ⟨by simp, by trivial⟩

/-- C1 witness: a non-ELF file is rejected with memory left untouched. -/
theorem c1_pass1_gate_witness :
    (mimi_elf_load cfgStd imgBad mem0).1.status ≠ MIMI_OK ∧
    (mimi_elf_load cfgStd imgBad mem0).2 = mem0 :=
  c1_pass1_gate cfgStd imgBad mem0 (by decide)

/-- C1 counterexample: on imgC1, whose second segment's file data lies
beyond the end of the file, mimi_elf_load returns MIMI_ERR_READ (a non-OK
status) after the first segment's bytes were already written to memory
(address 0 changed from 0xAA to the file byte 0x7f). -/
theorem c1_counterexample :
    (mimi_elf_load cfgStd imgC1 mem0).1.status = MIMI_ERR_READ ∧
    (mimi_elf_load cfgStd imgC1 mem0).2 0 = 0x7f ∧ mem0 0 = 0xAA := by
  exact ⟨by decide, by decide, by decide⟩

/-- C2 (amended): with address validation on and under the additional
hypothesis that every PT_LOAD header satisfies p_filesz ≤ p_memsz (which
the loader itself never checks), every memory byte changed by
mimi_elf_load lies inside some PT_LOAD header's [p_vaddr, p_vaddr +
p_memsz). -/
theorem c2_write_containment (config : mimi_loader_config) (file : List Nat) (mem : Mem)
    (hval : config.validate_addresses = true) (hfile : file.length < U32MOD)
    (hfs : ∀ i, i < (ehdrOf file).e_phnum → (phdrAt file (ehdrOf file) i).p_type = PT_LOAD →
      (phdrAt file (ehdrOf file) i).p_filesz ≤ (phdrAt file (ehdrOf file) i).p_memsz)
    (a : Nat) (hchg : (mimi_elf_load config file mem).2 a ≠ mem a) :
    ∃ i, i < (ehdrOf file).e_phnum ∧ (phdrAt file (ehdrOf file) i).p_type = PT_LOAD ∧
      (phdrAt file (ehdrOf file) i).p_vaddr ≤ a ∧
      a < (phdrAt file (ehdrOf file) i).p_vaddr + (phdrAt file (ehdrOf file) i).p_memsz := by
  by_contra hc
  push_neg at hc
  apply hchg
  unfold mimi_elf_load
  rcases hrd : ioRead file 0 52 with _ | hb
  · simp only [hrd]
  · have hb_eq : hb = file.take 52 := by
      have := (ioRead_some_iff hrd).2
      simpa using this
    have hehdr : decodeEhdr hb = ehdrOf file := by rw [hb_eq]; rfl
    simp only [hrd, hehdr]
    by_cases hv : mimi_elf_validate_header (ehdrOf file) ≠ MIMI_OK
    · rw [if_pos hv]
    · rw [if_neg hv]
      rcases hp1 : pass1_loop config file (ehdrOf file)
          (min (ehdrOf file).e_phnum MIMI_MAX_SEGMENTS) 0 pass1_init with ⟨err1, st⟩
      simp only [hp1]
      by_cases he1 : err1 ≠ MIMI_OK
      · rw [if_pos he1]
      · rw [if_neg he1]
        by_cases hl0 : st.seg_info.length = 0
        · rw [if_pos hl0]
        · rw [if_neg hl0]
          rcases hp2 : pass2_loop config file (ehdrOf file) (ehdrOf file).e_phnum 0 0 [] mem 0 0
            with ⟨err2, si, segs, mem2, bc2, bz2⟩
          simp only [hp2]
          have hframe := pass2_loop_frame config file (ehdrOf file) hval hfile
            (ehdrOf file).e_phnum 0 0 [] mem 0 0
            (fun j h1 h2 => hfs j (by omega)) a
            (fun j h1 h2 ht => by
              intro hcontra
              have := hc j (by omega) ht hcontra.1
              omega)
          rw [hp2] at hframe
          by_cases he2 : err2 ≠ MIMI_OK
          · rw [if_pos he2]
            exact hframe
          · rw [if_neg he2]
            exact hframe

/-- C2 witness: the amended containment theorem applied to the minimal
valid image -- address 0 is changed by the load and indeed lies inside the
single PT_LOAD segment's [p_vaddr, p_vaddr + p_memsz). -/
theorem c2_write_containment_witness :
    ∃ i, i < (ehdrOf imgMin).e_phnum ∧ (phdrAt imgMin (ehdrOf imgMin) i).p_type = PT_LOAD ∧
      (phdrAt imgMin (ehdrOf imgMin) i).p_vaddr ≤ 0 ∧
      0 < (phdrAt imgMin (ehdrOf imgMin) i).p_vaddr + (phdrAt imgMin (ehdrOf imgMin) i).p_memsz :=
  c2_write_containment cfgStd imgMin mem0 (by decide) (by decide) (by decide) 0 (by decide)

/-- C2 counterexample: imgC2's only PT_LOAD has p_filesz = 8 > p_memsz = 2,
yet mimi_elf_load accepts and loads it (status MIMI_OK, segment recorded
as loaded), and the copy phase writes address 5, which is outside the
validated interval [p_vaddr, p_vaddr + p_memsz) = [0, 2). -/
theorem c2_counterexample :
    (phdrAt imgC2 (ehdrOf imgC2) 0).p_filesz = 8 ∧
    (phdrAt imgC2 (ehdrOf imgC2) 0).p_memsz = 2 ∧
    (phdrAt imgC2 (ehdrOf imgC2) 0).p_vaddr = 0 ∧
    (mimi_elf_load cfgStd imgC2 mem0).1.status = MIMI_OK ∧
    ((mimi_elf_load cfgStd imgC2 mem0).1.segments.getD 0
      { vaddr := 0, size := 0, flags := 0, loaded := false }).loaded = true ∧
    (mimi_elf_load cfgStd imgC2 mem0).2 5 ≠ mem0 5 := by
  exact ⟨by decide, by decide, by decide, by decide, by decide, by decide⟩

/-- C3 (amended): the byte-exact load postcondition holds for every
PT_LOAD header of a successfully loaded image, under the hypotheses the
counterexample shows to be necessary: e_phnum ≤ 16 (so pass 1 checked
every header) and p_filesz ≤ p_memsz for each PT_LOAD header (which the
loader does not check).  With zero_bss on, every byte of
[p_vaddr, p_vaddr + p_filesz) equals the file byte at
p_offset + (b - p_vaddr) and every byte of
[p_vaddr + p_filesz, p_vaddr + p_memsz) is zero. -/
theorem c3_load_postcondition (config : mimi_loader_config) (file : List Nat) (mem : Mem)
    (hval : config.validate_addresses = true) (hzb : config.zero_bss = true)
    (hfile : file.length < U32MOD)
    (hphnum : (ehdrOf file).e_phnum ≤ MIMI_MAX_SEGMENTS)
    (hfs : ∀ i, i < (ehdrOf file).e_phnum → (phdrAt file (ehdrOf file) i).p_type = PT_LOAD →
      (phdrAt file (ehdrOf file) i).p_filesz ≤ (phdrAt file (ehdrOf file) i).p_memsz)
    (hok : (mimi_elf_load config file mem).1.status = MIMI_OK) :
    ∀ i, i < (ehdrOf file).e_phnum → (phdrAt file (ehdrOf file) i).p_type = PT_LOAD →
      (∀ b, b < (phdrAt file (ehdrOf file) i).p_filesz →
        (mimi_elf_load config file mem).2 ((phdrAt file (ehdrOf file) i).p_vaddr + b) =
          file.getD ((phdrAt file (ehdrOf file) i).p_offset + b) 0) ∧
      (∀ b, (phdrAt file (ehdrOf file) i).p_filesz ≤ b →
        b < (phdrAt file (ehdrOf file) i).p_memsz →
        (mimi_elf_load config file mem).2 ((phdrAt file (ehdrOf file) i).p_vaddr + b) = 0) := by
  obtain ⟨st, si, segs, bc2, bz2, -, -, -, -, hp2, -, -⟩ :=
    mimi_elf_load_ok_cases config file mem hok
  have hdisj := load_ok_disjoint config file mem hval hphnum hok
  intro i hi hload
  exact pass2_loop_ok config file (ehdrOf file) hval hzb hfile (ehdrOf file).e_phnum 0 0 []
    mem 0 0 MIMI_OK si segs _ bc2 bz2 hp2 rfl
    (by
      have := ptLoadCountFrom_le file (ehdrOf file) (ehdrOf file).e_phnum 0
      simp only [MIMI_MAX_SEGMENTS] at *
      omega)
    (fun j h1 h2 => hfs j (by omega))
    (fun j k h1 h2 h3 hlj hlk => hdisj j k h2 (by omega) hlj hlk)
    i (by omega) (by omega) hload

/-- C3 witness: the postcondition instantiated on the minimal valid image
(one PT_LOAD, p_filesz 4, p_memsz 8, loaded at address 0). -/
theorem c3_load_postcondition_witness :
    (∀ b, b < (phdrAt imgMin (ehdrOf imgMin) 0).p_filesz →
      (mimi_elf_load cfgStd imgMin mem0).2 ((phdrAt imgMin (ehdrOf imgMin) 0).p_vaddr + b) =
        imgMin.getD ((phdrAt imgMin (ehdrOf imgMin) 0).p_offset + b) 0) ∧
    (∀ b, (phdrAt imgMin (ehdrOf imgMin) 0).p_filesz ≤ b →
      b < (phdrAt imgMin (ehdrOf imgMin) 0).p_memsz →
      (mimi_elf_load cfgStd imgMin mem0).2 ((phdrAt imgMin (ehdrOf imgMin) 0).p_vaddr + b) = 0) :=
  c3_load_postcondition cfgStd imgMin mem0 (by decide) (by decide) (by decide) (by decide)
    (by decide) (by decide) 0 (by decide) (by decide)

/-- C3 counterexample: imgC3 loads successfully with zero_bss on, its
first recorded segment is loaded, yet byte b = 4 of that segment's file
range [p_vaddr, p_vaddr + p_filesz) = [0, 8) does not hold the file byte
at p_offset + 4: segment 1's BSS zeroing overwrote it (its p_filesz = 8
exceeds its p_memsz = 2, which pass 1 never rejects). -/
theorem c3_counterexample :
    cfgStd.zero_bss = true ∧
    (mimi_elf_load cfgStd imgC3 mem0).1.status = MIMI_OK ∧
    ((mimi_elf_load cfgStd imgC3 mem0).1.segments.getD 0
      { vaddr := 0, size := 0, flags := 0, loaded := false }).loaded = true ∧
    (phdrAt imgC3 (ehdrOf imgC3) 0).p_vaddr = 0 ∧
    (phdrAt imgC3 (ehdrOf imgC3) 0).p_offset = 0 ∧
    (phdrAt imgC3 (ehdrOf imgC3) 0).p_filesz = 8 ∧
    (mimi_elf_load cfgStd imgC3 mem0).2 (0 + 4) ≠ imgC3.getD (0 + 4) 0 := by
  exact ⟨by decide, by decide, by decide, by decide, by decide, by decide, by decide⟩

/-- C4 (amended): on a successful load whose e_phnum is at most 16 -- so
that pass 1 examined every program header -- the loadable segments are
pairwise disjoint as address intervals.  (For e_phnum > 16 the guarantee
fails: pass 2 loads headers pass 1 never overlap-checked, see the
counterexample.) -/
theorem c4_segment_disjointness (config : mimi_loader_config) (file : List Nat) (mem : Mem)
    (hval : config.validate_addresses = true)
    (hphnum : (ehdrOf file).e_phnum ≤ MIMI_MAX_SEGMENTS)
    (hok : (mimi_elf_load config file mem).1.status = MIMI_OK) :
    ∀ j k, j < k → k < (ehdrOf file).e_phnum →
      loadableAt file (ehdrOf file) j → loadableAt file (ehdrOf file) k →
      ∀ x, ¬((phdrAt file (ehdrOf file) j).p_vaddr ≤ x ∧
             x < (phdrAt file (ehdrOf file) j).p_vaddr + (phdrAt file (ehdrOf file) j).p_memsz ∧
             (phdrAt file (ehdrOf file) k).p_vaddr ≤ x ∧
             x < (phdrAt file (ehdrOf file) k).p_vaddr +
               (phdrAt file (ehdrOf file) k).p_memsz) :=
  load_ok_disjoint config file mem hval hphnum hok

/-- C4 witness: the two loadable segments of imgC3 ([0, 2) and [4, 8))
are disjoint; in particular address 1 is not in both. -/
theorem c4_segment_disjointness_witness :
    ¬((phdrAt imgC3 (ehdrOf imgC3) 0).p_vaddr ≤ 1 ∧
      1 < (phdrAt imgC3 (ehdrOf imgC3) 0).p_vaddr + (phdrAt imgC3 (ehdrOf imgC3) 0).p_memsz ∧
      (phdrAt imgC3 (ehdrOf imgC3) 1).p_vaddr ≤ 1 ∧
      1 < (phdrAt imgC3 (ehdrOf imgC3) 1).p_vaddr + (phdrAt imgC3 (ehdrOf imgC3) 1).p_memsz) :=
  c4_segment_disjointness cfgStd imgC3 mem0 (by decide) (by decide) (by decide)
    0 1 (by decide) (by decide) (by decide) (by decide) 1

/-- C4 counterexample: imgC4 has 17 program headers whose PT_LOAD entries
at indices 0 and 16 overlap ([0, 8) and [4, 12), both with p_memsz > 0),
yet mimi_elf_load accepts the image with MIMI_OK and records both
overlapping segments as loaded -- no address-overlap error is raised,
because pass 1 never examines header index 16. -/
theorem c4_counterexample :
    (ehdrOf imgC4).e_phnum = 17 ∧
    (mimi_elf_load cfgStd imgC4 mem0).1.status = MIMI_OK ∧
    (mimi_elf_load cfgStd imgC4 mem0).1.segment_count = 2 ∧
    (mimi_elf_load cfgStd imgC4 mem0).1.segments.getD 0
      { vaddr := 0, size := 0, flags := 0, loaded := false } =
      { vaddr := 0, size := 8, flags := 7, loaded := true } ∧
    (mimi_elf_load cfgStd imgC4 mem0).1.segments.getD 1
      { vaddr := 0, size := 0, flags := 0, loaded := false } =
      { vaddr := 4, size := 8, flags := 7, loaded := true } ∧
    mimi_ranges_overlap 0 8 4 8 = true := by
  exact ⟨by decide, by decide, by decide, by decide, by decide, by decide⟩

/-- C5 (amended): an image with exactly 16 loadable segments loads
successfully with all 16 loaded; an image with 17 loadable segments is NOT
rejected -- mimi_elf_load still returns MIMI_OK and silently loads only the
first 16 (pass 1 examines only the first 16 program headers and pass 2
stops after 16 loads). -/
theorem c5_segment_limit :
    (mimi_elf_load cfgStd imgC5a mem0).1.status = MIMI_OK ∧
    (mimi_elf_load cfgStd imgC5a mem0).1.segment_count = 16 ∧
    ptLoadCountFrom imgC5a (ehdrOf imgC5a) (ehdrOf imgC5a).e_phnum 0 = 16 ∧
    (mimi_elf_load cfgStd imgC5b mem0).1.status = MIMI_OK ∧
    (mimi_elf_load cfgStd imgC5b mem0).1.segment_count = 16 ∧
    ptLoadCountFrom imgC5b (ehdrOf imgC5b) (ehdrOf imgC5b).e_phnum 0 = 17 := by
  exact ⟨by decide, by decide, by decide, by decide, by decide, by decide⟩

/-- C5 counterexample: imgC5b has 17 loadable (PT_LOAD, p_memsz > 0)
segments; the claim says the load must fail rather than load a subset, but
mimi_elf_load returns MIMI_OK having loaded only 16 segments. -/
theorem c5_counterexample :
    (ehdrOf imgC5b).e_phnum = 17 ∧
    ptLoadCountFrom imgC5b (ehdrOf imgC5b) (ehdrOf imgC5b).e_phnum 0 = 17 ∧
    (∀ i, i < 17 → loadableAt imgC5b (ehdrOf imgC5b) i) ∧
    (mimi_elf_load cfgStd imgC5b mem0).1.status = MIMI_OK ∧
    (mimi_elf_load cfgStd imgC5b mem0).1.segment_count = 16 := by
  exact ⟨by decide, by decide, by decide, by decide, by decide⟩

/-- C10: on every successful load, segment_count equals min(number of
PT_LOAD program headers, 16) -- every PT_LOAD processed in pass 2 counts,
including p_memsz = 0 entries that pass 1 skipped -- and every recorded
segment is marked loaded = true. -/
theorem c10_segment_count (config : mimi_loader_config) (file : List Nat) (mem : Mem)
    (hok : (mimi_elf_load config file mem).1.status = MIMI_OK) :
    (mimi_elf_load config file mem).1.segment_count =
      min (ptLoadCountFrom file (ehdrOf file) (ehdrOf file).e_phnum 0) MIMI_MAX_SEGMENTS ∧
    ∀ s ∈ (mimi_elf_load config file mem).1.segments, s.loaded = true := by
  obtain ⟨st, si, segs, bc2, bz2, -, -, -, -, hp2, hcount, hsegs⟩ :=
    mimi_elf_load_ok_cases config file mem hok
  have h := pass2_loop_count config file (ehdrOf file) (ehdrOf file).e_phnum 0 0 [] mem 0 0
    MIMI_OK si segs _ bc2 bz2 hp2 rfl (by simp [MIMI_MAX_SEGMENTS])
  constructor
  · rw [hcount, h.1]
    omega
  · rw [hsegs]
    exact h.2 (by simp)

/-- C10 witness: imgC10 has one ordinary PT_LOAD and one empty PT_LOAD
(p_memsz = 0); the load succeeds with segment_count = 2 (both counted, the
empty one recorded with loaded = true) while pass 1 validated and
overlap-checked only 1 segment. -/
theorem c10_segment_count_witness :
    (mimi_elf_load cfgStd imgC10 mem0).1.segment_count =
      min (ptLoadCountFrom imgC10 (ehdrOf imgC10) (ehdrOf imgC10).e_phnum 0) MIMI_MAX_SEGMENTS ∧
    ptLoadCountFrom imgC10 (ehdrOf imgC10) (ehdrOf imgC10).e_phnum 0 = 2 ∧
    (phdrAt imgC10 (ehdrOf imgC10) 1).p_type = PT_LOAD ∧
    (phdrAt imgC10 (ehdrOf imgC10) 1).p_memsz = 0 ∧
    ((mimi_elf_load cfgStd imgC10 mem0).1.segments.getD 1
      { vaddr := 0, size := 0, flags := 0, loaded := false }).loaded = true ∧
    (pass1_loop cfgStd imgC10 (ehdrOf imgC10) (min (ehdrOf imgC10).e_phnum MIMI_MAX_SEGMENTS)
      0 pass1_init).2.seg_info.length = 1 :=
  ⟨(c10_segment_count cfgStd imgC10 mem0 (by decide)).1, by decide, by decide, by decide,
    by decide, by decide⟩

end MimiBoot
